import Mathlib

/-!
# The EXGL context manager

A shallow embedding of `ios/versioned/sdk45/EXGL_CPP/ABI45_0_0EXGLContextManager.cpp`:
the registry `manager` (a map from context ids to `ContextState`, and the counter
`nextId`) and its three operations `ContextGet`, `ContextCreate`, `ContextDestroy`.

Conventions of the embedding.

* `ABI45_0_0EXGLContextId` is an integer type declared in a header; its values are
  natural numbers and its largest value `std::numeric_limits<...>::max()` is the
  argument `maxId` of `ContextCreate`. The increment `nextId++` is taken modulo
  `maxId + 1`.
* A pointer `ABI45_0_0EXGLContext *` is `Option Nat`: `none` is `nullptr`, `some a` is
  the address of the `a`-th object ever allocated with `new`. The free store is the
  list of these objects, each with the number of times `delete` ran on it.
* `ABI45_0_0EXGLSysLog` appends its message to `syslog`.
* `std::unordered_map` is an association list; `find` returns the first binding
  of a key and `erase` removes every binding of it.
* The functions below give the effect of one whole call. `contextLookupMutex` is
  taken on entry and released on exit of every call, and the `std::unique_lock` of
  `ContextDestroy` is released before it returns, so neither is part of the state
  between calls. The shared owners of each entry's `std::shared_mutex` are part of
  it: a `ContextWithLock` outlives the call that made it.
-/

namespace ABI45_0_0expo.gl_cpp

/-- Values of the id type `ABI45_0_0EXGLContextId`. -/
abbrev ABI45_0_0EXGLContextId := Nat

/-- The native object: `new ABI45_0_0EXGLContext(ctxId)` records its constructor argument. -/
structure ABI45_0_0EXGLContext where
  ctxId : ABI45_0_0EXGLContextId
  deriving DecidableEq, Repr

/-- One allocation of the free store: the object and how many times it was deleted. -/
structure HeapCell where
  obj : ABI45_0_0EXGLContext
  deletes : Nat
  deriving DecidableEq, Repr

/-- The state of a `std::shared_mutex` between calls: the number of shared owners. -/
structure SharedMutex where
  shared : Nat
  deriving DecidableEq, Repr

/-- The struct `ContextState`: the context pointer and the entry's mutex. -/
structure ContextState where
  ctx : Option Nat
  mutex : SharedMutex
  deriving DecidableEq, Repr

/-- The struct `ContextManager`: `contextMap` and `nextId`. -/
structure ContextManager where
  contextMap : List (ABI45_0_0EXGLContextId × ContextState)
  nextId : ABI45_0_0EXGLContextId
  deriving DecidableEq, Repr

/-- The process state the three operations act on: the global `manager`, the free
store and the system log. -/
structure World where
  manager : ContextManager
  heap : List HeapCell
  syslog : List String
  deriving DecidableEq, Repr

/-- The pair returned by `ContextGet`: the context pointer and a
`std::shared_lock`, which owns the mutex of the entry `lock` or owns no mutex. -/
structure ContextWithLock where
  ctx : Option Nat
  lock : Option ABI45_0_0EXGLContextId
  deriving DecidableEq, Repr

/-- The global `ContextManager manager;` at program start: empty map, `nextId = 1`. -/
def manager : ContextManager := { contextMap := [], nextId := 1 }

/-- The initial process state. -/
def initial : World := { manager := manager, heap := [], syslog := [] }

/-! ## The map -/

/-- The call `contextMap.find(id)`: the entry of `id`, `none` for `end()`. -/
def find : List (ABI45_0_0EXGLContextId × ContextState) → ABI45_0_0EXGLContextId → Option ContextState
  | [], _ => none
  | (k, st) :: rest, id => if k = id then some st else find rest id

/-- The call `contextMap.erase(iter)` for the iterator of `id`. -/
def erase (m : List (ABI45_0_0EXGLContextId × ContextState)) (id : ABI45_0_0EXGLContextId) :
    List (ABI45_0_0EXGLContextId × ContextState) :=
  m.filter (fun e => decide (e.1 ≠ id))

/-- The keys of the map. -/
def keys (m : List (ABI45_0_0EXGLContextId × ContextState)) : List ABI45_0_0EXGLContextId :=
  m.map Prod.fst

/-- Applies `f` to the entry that `find` returns for `id`. -/
def adjust (f : ContextState → ContextState) :
    List (ABI45_0_0EXGLContextId × ContextState) → ABI45_0_0EXGLContextId →
    List (ABI45_0_0EXGLContextId × ContextState)
  | [], _ => []
  | (k, st) :: rest, id => if k = id then (k, f st) :: rest else (k, st) :: adjust f rest id

/-- The expression `contextMap[id]`: a missing key is inserted with a
value-initialised `ContextState` (null `ctx`, unlocked mutex). -/
def subscript (m : List (ABI45_0_0EXGLContextId × ContextState)) (id : ABI45_0_0EXGLContextId) :
    List (ABI45_0_0EXGLContextId × ContextState) :=
  match find m id with
  | some _ => m
  | none => (id, { ctx := none, mutex := { shared := 0 } }) :: m

/-! ## The free store -/

/-- The expression `new ABI45_0_0EXGLContext(ctxId)`: the address and the new store. -/
def heapNew (heap : List HeapCell) (ctxId : ABI45_0_0EXGLContextId) : Nat × List HeapCell :=
  (heap.length, heap ++ [{ obj := { ctxId := ctxId }, deletes := 0 }])

/-- Counts one more `delete` on the object at address `a`. -/
def deleteAt : List HeapCell → Nat → List HeapCell
  | [], _ => []
  | c :: cs, 0 => { c with deletes := c.deletes + 1 } :: cs
  | c :: cs, a + 1 => c :: deleteAt cs a

/-- The statement `delete p`: nothing for `nullptr`. -/
def heapDelete (heap : List HeapCell) : Option Nat → List HeapCell
  | none => heap
  | some a => deleteAt heap a

/-! ## The three operations -/

/-- `ContextWithLock ContextGet(ABI45_0_0EXGLContextId id)`. -/
def ContextGet (id : ABI45_0_0EXGLContextId) (w : World) : ContextWithLock × World :=
  match find w.manager.contextMap id with
  | none => ({ ctx := none, lock := none }, w)
  | some st =>
    if st.ctx = none then ({ ctx := none, lock := none }, w)
    else
      ({ ctx := st.ctx, lock := some id },
       { w with manager := { w.manager with
           contextMap := adjust (fun s => { s with mutex := { shared := s.mutex.shared + 1 } })
             w.manager.contextMap id } })

/-- The destructor of the `std::shared_lock` of a `ContextWithLock`: the owned
mutex, if any, loses one shared owner. -/
def unlockShared (lock : Option ABI45_0_0EXGLContextId) (w : World) : World :=
  match lock with
  | none => w
  | some id =>
    { w with manager := { w.manager with
        contextMap := adjust (fun s => { s with mutex := { shared := s.mutex.shared - 1 } })
          w.manager.contextMap id } }

/-- `ABI45_0_0EXGLContextId ContextCreate()`, for an id type whose largest value is `maxId`. -/
def ContextCreate (maxId : Nat) (w : World) : ABI45_0_0EXGLContextId × World :=
  if w.manager.nextId ≥ maxId then
    (0, { w with syslog := w.syslog ++ ["Ran out of ABI45_0_0EXGLContext ids!"] })
  else
    let ctxId := w.manager.nextId
    let next := (w.manager.nextId + 1) % (maxId + 1)
    match find w.manager.contextMap ctxId with
    | some _ =>
      (0, { w with
        manager := { w.manager with nextId := next }
        syslog := w.syslog ++
          ["Tried to reuse an ABI45_0_0EXGLContext id. This shouldn't really happen..."] })
    | none =>
      let alloc := heapNew w.heap ctxId
      (ctxId, { w with
        manager := {
          contextMap := adjust (fun s => { s with ctx := some alloc.1 })
            (subscript w.manager.contextMap ctxId) ctxId
          nextId := next }
        heap := alloc.2 })

/-- `void ContextDestroy(ABI45_0_0EXGLContextId id)`. The result is `none` when the
call does not return: the `std::unique_lock` is not granted while the entry's mutex
has a shared owner. -/
def ContextDestroy (id : ABI45_0_0EXGLContextId) (w : World) : Option World :=
  match find w.manager.contextMap id with
  | none => some w
  | some st =>
    if st.mutex.shared ≠ 0 then none
    else
      some { w with
        heap := heapDelete w.heap st.ctx
        manager := { w.manager with contextMap := erase w.manager.contextMap id } }

/-! ## Sequences of calls -/

/-- What a caller of the registry does next: one of the three calls, or dropping a
`ContextWithLock` it holds on the entry `id`. -/
inductive Call where
  | create
  | get (id : ABI45_0_0EXGLContextId)
  | destroy (id : ABI45_0_0EXGLContextId)
  | drop (id : ABI45_0_0EXGLContextId)
  deriving DecidableEq, Repr

/-- What the caller observes of a completed action. -/
inductive Ret where
  | created (id : ABI45_0_0EXGLContextId)
  | got (r : ContextWithLock)
  | destroyed
  | dropped
  deriving DecidableEq, Repr

/-- One action of the caller; `none` when the call does not return. -/
def step (maxId : Nat) (w : World) : Call → Option (Ret × World)
  | Call.create => some (Ret.created (ContextCreate maxId w).1, (ContextCreate maxId w).2)
  | Call.get id => some (Ret.got (ContextGet id w).1, (ContextGet id w).2)
  | Call.destroy id =>
    match ContextDestroy id w with
    | none => none
    | some w1 => some (Ret.destroyed, w1)
  | Call.drop id => some (Ret.dropped, unlockShared (some id) w)

/-- Runs a sequence of actions from `w`: the results of the actions that completed
and the state reached. A call that does not return ends the run. -/
def run (maxId : Nat) : World → List Call → List Ret × World
  | w, [] => ([], w)
  | w, c :: cs =>
    match step maxId w c with
    | none => ([], w)
    | some (r, w1) => (r :: (run maxId w1 cs).1, (run maxId w1 cs).2)

/-- The values returned by the `ContextCreate` calls of a run, in call order. -/
def createResults : List Ret → List ABI45_0_0EXGLContextId
  | [] => []
  | Ret.created id :: rs => id :: createResults rs
  | _ :: rs => createResults rs

/-- The handles issued in a run: the non-zero values returned by `ContextCreate`. -/
def issuedHandles (rs : List Ret) : List ABI45_0_0EXGLContextId :=
  (createResults rs).filter (fun id => decide (id ≠ 0))

/-- Whether a run executed every one of its actions. -/
def completes (maxId : Nat) (w : World) (cs : List Call) : Bool :=
  (run maxId w cs).1.length == cs.length

/-- The invariant of the registry for an id type with largest value `maxId`:
`nextId` is at least 1 and, when the id type has the value 1, at most `maxId`; every
key is at least 1, below `nextId` and below `maxId`; every entry points to an
object that was constructed with the entry's key and has not been deleted; and no
object has been deleted twice. -/
def Inv (maxId : Nat) (w : World) : Prop :=
  1 ≤ w.manager.nextId ∧
  (1 ≤ maxId → w.manager.nextId ≤ maxId) ∧
  (∀ e ∈ w.manager.contextMap, 1 ≤ e.1 ∧ e.1 < w.manager.nextId ∧ e.1 < maxId ∧
    ∃ a, e.2.ctx = some a ∧ w.heap[a]? = some { obj := { ctxId := e.1 }, deletes := 0 }) ∧
  (∀ c ∈ w.heap, c.deletes ≤ 1)

/-! ## Threads

The calls again, one statement at a time, for any number of threads. A thread is at
a program point `Pc`; a schedule names, action by action, the thread that moves
next. `contextLookupMutex` records its owner, `exclusive` the entries whose
`std::shared_mutex` is owned by a `std::unique_lock`, and `tokens` the
`ContextWithLock` values alive whose lock owns a mutex, each with the thread that
holds it and the entry it locks. -/

/-- The program points of a thread, by the source line it executes next. -/
inductive Pc where
  | idle
  | getLock (id : ABI45_0_0EXGLContextId)
  | getFind (id : ABI45_0_0EXGLContextId)
  | createCheck
  | createLock
  | createReserve
  | createFind (ctxId : ABI45_0_0EXGLContextId)
  | createInsert (ctxId : ABI45_0_0EXGLContextId)
  | destroyLock (id : ABI45_0_0EXGLContextId)
  | destroyFind (id : ABI45_0_0EXGLContextId)
  | destroyUnique (id : ABI45_0_0EXGLContextId)
  | destroyDelete (id : ABI45_0_0EXGLContextId)
  | destroyUnlock (id : ABI45_0_0EXGLContextId)
  | destroyErase (id : ABI45_0_0EXGLContextId)
  deriving DecidableEq, Repr

/-- The program points at which the thread owns `contextLookupMutex`. -/
def Pc.critical : Pc → Bool
  | Pc.idle => false
  | Pc.getLock _ => false
  | Pc.getFind _ => true
  | Pc.createCheck => false
  | Pc.createLock => false
  | Pc.createReserve => true
  | Pc.createFind _ => true
  | Pc.createInsert _ => true
  | Pc.destroyLock _ => false
  | Pc.destroyFind _ => true
  | Pc.destroyUnique _ => true
  | Pc.destroyDelete _ => true
  | Pc.destroyUnlock _ => true
  | Pc.destroyErase _ => true

/-- The state of the process with its threads. -/
structure Sys where
  world : World
  contextLookupMutex : Option Nat
  exclusive : List ABI45_0_0EXGLContextId
  pcs : List Pc
  tokens : List (Nat × ABI45_0_0EXGLContextId)
  rets : List (Nat × Ret)
  deriving DecidableEq, Repr

/-- The process at start with `n` threads, none of them in a call. -/
def start (n : Nat) : Sys :=
  { world := initial, contextLookupMutex := none, exclusive := [],
    pcs := List.replicate n Pc.idle, tokens := [], rets := [] }

/-- The number of shared owners of the mutex of entry `id`; 0 when there is no entry. -/
def sharedOf (m : List (ABI45_0_0EXGLContextId × ContextState)) (id : ABI45_0_0EXGLContextId) : Nat :=
  match find m id with
  | none => 0
  | some st => st.mutex.shared

/-- The number of tokens alive that lock the entry `id`. -/
def heldOn : List (Nat × ABI45_0_0EXGLContextId) → ABI45_0_0EXGLContextId → Nat
  | [], _ => 0
  | (_, k) :: rest, id => (if k = id then 1 else 0) + heldOn rest id

/-- Thread `t` returns `r` from its call: it becomes idle and, when `release` is
set, the `std::lock_guard` on `contextLookupMutex` goes out of scope. -/
def finish (s : Sys) (t : Nat) (r : Ret) (release : Bool) : Sys :=
  { s with
    pcs := s.pcs.set t Pc.idle
    contextLookupMutex := if release then none else s.contextLookupMutex
    rets := s.rets ++ [(t, r)] }

/-- Thread `t` moves on to the program point `pc`. -/
def goto (s : Sys) (t : Nat) (pc : Pc) : Sys :=
  { s with pcs := s.pcs.set t pc }

/-- The next statement of thread `t`; an idle thread starts the action `c`. The
result is `none` when the thread does not exist or cannot move: it waits for a
lock, or would drop a token it does not hold. -/
def tstep (maxId : Nat) (s : Sys) (t : Nat) (c : Call) : Option Sys :=
  match s.pcs[t]? with
  | none => none
  | some Pc.idle =>
    match c with
    | Call.create => some (goto s t Pc.createCheck)
    | Call.get id => some (goto s t (Pc.getLock id))
    | Call.destroy id => some (goto s t (Pc.destroyLock id))
    | Call.drop id =>
      if (t, id) ∈ s.tokens then
        some { s with
          world := unlockShared (some id) s.world
          tokens := s.tokens.erase (t, id)
          rets := s.rets ++ [(t, Ret.dropped)] }
      else none
  -- line 20
  | some (Pc.getLock id) =>
    if s.contextLookupMutex = none then
      some { goto s t (Pc.getFind id) with contextLookupMutex := some t }
    else none
  -- lines 21 to 26
  | some (Pc.getFind id) =>
    if (ContextGet id s.world).1.lock = none then
      some (finish s t (Ret.got (ContextGet id s.world).1) true)
    else if id ∈ s.exclusive then none
    else
      some (finish { s with
        world := (ContextGet id s.world).2
        tokens := s.tokens ++ [(t, id)] } t (Ret.got (ContextGet id s.world).1) true)
  -- lines 31 to 34
  | some Pc.createCheck =>
    if s.world.manager.nextId ≥ maxId then
      some (finish { s with
        world := { s.world with
          syslog := s.world.syslog ++ ["Ran out of ABI45_0_0EXGLContext ids!"] } }
        t (Ret.created 0) false)
    else some (goto s t Pc.createLock)
  -- line 36
  | some Pc.createLock =>
    if s.contextLookupMutex = none then
      some { goto s t Pc.createReserve with contextLookupMutex := some t }
    else none
  -- line 37
  | some Pc.createReserve =>
    some (goto { s with
      world := { s.world with
        manager := { s.world.manager with
          nextId := (s.world.manager.nextId + 1) % (maxId + 1) } } }
      t (Pc.createFind s.world.manager.nextId))
  -- lines 38 to 41
  | some (Pc.createFind ctxId) =>
    match find s.world.manager.contextMap ctxId with
    | some _ =>
      some (finish { s with
        world := { s.world with
          syslog := s.world.syslog ++
            ["Tried to reuse an ABI45_0_0EXGLContext id. This shouldn't really happen..."] } }
        t (Ret.created 0) true)
    | none => some (goto s t (Pc.createInsert ctxId))
  -- lines 42 and 43
  | some (Pc.createInsert ctxId) =>
    some (finish { s with
      world := { s.world with
        manager := { s.world.manager with
          contextMap := adjust (fun st => { st with ctx := some (heapNew s.world.heap ctxId).1 })
            (subscript s.world.manager.contextMap ctxId) ctxId }
        heap := (heapNew s.world.heap ctxId).2 } }
      t (Ret.created ctxId) true)
  -- line 47
  | some (Pc.destroyLock id) =>
    if s.contextLookupMutex = none then
      some { goto s t (Pc.destroyFind id) with contextLookupMutex := some t }
    else none
  -- lines 49 and 50
  | some (Pc.destroyFind id) =>
    match find s.world.manager.contextMap id with
    | none => some (finish s t Ret.destroyed true)
    | some _ => some (goto s t (Pc.destroyUnique id))
  -- line 52
  | some (Pc.destroyUnique id) =>
    if sharedOf s.world.manager.contextMap id = 0 ∧ id ∉ s.exclusive then
      some (goto { s with exclusive := id :: s.exclusive } t (Pc.destroyDelete id))
    else none
  -- line 53
  | some (Pc.destroyDelete id) =>
    some (goto { s with
      world := { s.world with
        heap := heapDelete s.world.heap
          ((find s.world.manager.contextMap id).bind (fun st => st.ctx)) } }
      t (Pc.destroyUnlock id))
  -- line 54
  | some (Pc.destroyUnlock id) =>
    some (goto { s with exclusive := s.exclusive.erase id } t (Pc.destroyErase id))
  -- lines 55 to 57
  | some (Pc.destroyErase id) =>
    some (finish { s with
      world := { s.world with
        manager := { s.world.manager with
          contextMap := erase s.world.manager.contextMap id } } }
      t Ret.destroyed true)

/-- Runs a schedule: each item names the thread that moves and the action it
starts if it is idle. An item whose thread cannot move changes nothing. -/
def exec (maxId : Nat) : Sys → List (Nat × Call) → Sys
  | s, [] => s
  | s, (t, c) :: rest =>
    match tstep maxId s t c with
    | none => exec maxId s rest
    | some s1 => exec maxId s1 rest

/-- The program points of `ContextDestroy(h)` from its `delete` statement to the
return. -/
def Pc.deleting (pc : Pc) (h : ABI45_0_0EXGLContextId) : Prop :=
  pc = Pc.destroyDelete h ∨ pc = Pc.destroyUnlock h ∨ pc = Pc.destroyErase h

/-- Exactly the owner of `contextLookupMutex` is at a critical program point. -/
def Owner (pcs : List Pc) (m : Option Nat) : Prop :=
  ∀ (t : Nat) (pc : Pc), pcs[t]? = some pc → (pc.critical = true ↔ m = some t)

/-- An entry whose context is being deleted has no shared owner. -/
def Quiet (pcs : List Pc) (m : List (ABI45_0_0EXGLContextId × ContextState)) : Prop :=
  ∀ (t : Nat) (pc : Pc) (id : ABI45_0_0EXGLContextId),
    pcs[t]? = some pc → pc.deleting id → sharedOf m id = 0

/-- The invariant of the threaded process: `Owner`, `Quiet`, and an entry has at
least as many shared owners as there are tokens that lock it. -/
def Good (s : Sys) : Prop :=
  Owner s.pcs s.contextLookupMutex ∧
  (∀ id, heldOn s.tokens id ≤ sharedOf s.world.manager.contextMap id) ∧
  Quiet s.pcs s.world.manager.contextMap

/-- The exclusive owners of the entries' mutexes: none, or the one entry whose
context a thread is deleting (it is at line 53 or 54). -/
def ExclOk (pcs : List Pc) (ex : List ABI45_0_0EXGLContextId) : Prop :=
  ex = [] ∨ ∃ (t : Nat) (id : ABI45_0_0EXGLContextId), ex = [id] ∧
    (pcs[t]? = some (Pc.destroyDelete id) ∨ pcs[t]? = some (Pc.destroyUnlock id))

/-- No entry of the map has a null context pointer. -/
def NoNull (m : List (ABI45_0_0EXGLContextId × ContextState)) : Prop :=
  ∀ e ∈ m, e.2.ctx ≠ none

/-! ## Facts about the map -/

theorem find_eq_none_iff (m : List (ABI45_0_0EXGLContextId × ContextState))
    (id : ABI45_0_0EXGLContextId) : find m id = none ↔ id ∉ keys m := by
  induction m with
  | nil => simp [find, keys]
  | cons e rest ih =>
    obtain ⟨k, st⟩ := e
    by_cases hk : k = id
    · simp [find, keys, hk]
    · have hk2 : ¬ id = k := fun h => hk h.symm
      simpa [find, keys, hk, hk2] using ih

theorem mem_keys_of_find (m : List (ABI45_0_0EXGLContextId × ContextState))
    (id : ABI45_0_0EXGLContextId) (st : ContextState) (h : find m id = some st) :
    id ∈ keys m := by
  by_contra hn
  rw [← find_eq_none_iff] at hn
  rw [hn] at h
  cases h

theorem mem_of_find (m : List (ABI45_0_0EXGLContextId × ContextState))
    (id : ABI45_0_0EXGLContextId) (st : ContextState) (h : find m id = some st) :
    (id, st) ∈ m := by
  induction m with
  | nil => simp [find] at h
  | cons e rest ih =>
    obtain ⟨k, s⟩ := e
    by_cases hk : k = id
    · simp [find, hk] at h
      simp [hk, h]
    · simp [find, hk] at h
      exact List.mem_cons_of_mem _ (ih h)

theorem find_erase_self (m : List (ABI45_0_0EXGLContextId × ContextState))
    (id : ABI45_0_0EXGLContextId) : find (erase m id) id = none := by
  rw [find_eq_none_iff]
  simp [keys, erase, List.mem_filter]

theorem find_erase_ne (m : List (ABI45_0_0EXGLContextId × ContextState))
    (id k : ABI45_0_0EXGLContextId) (h : k ≠ id) : find (erase m id) k = find m k := by
  induction m with
  | nil => simp [erase, find]
  | cons e rest ih =>
    obtain ⟨k1, st⟩ := e
    have ih2 : find (List.filter (fun e => decide (e.1 ≠ id)) rest) k = find rest k := ih
    by_cases hk : k1 = id
    · subst hk
      have hne : ¬ k1 = k := fun h2 => h h2.symm
      simp only [erase, List.filter_cons, ne_eq, not_true_eq_false, decide_False,
        Bool.false_eq_true, if_false, find, hne]
      exact ih2
    · by_cases hk2 : k1 = k
      · subst hk2
        simp [erase, find, hk, List.filter_cons]
      · simp only [erase, List.filter_cons, ne_eq, hk, not_false_eq_true, decide_True,
          if_true, find, hk2, if_false]
        exact ih2

theorem erase_of_not_mem (m : List (ABI45_0_0EXGLContextId × ContextState))
    (id : ABI45_0_0EXGLContextId) (h : id ∉ keys m) : erase m id = m := by
  unfold erase
  rw [List.filter_eq_self]
  intro e he
  have : e.1 ≠ id := by
    intro h2
    exact h (by rw [← h2]; exact List.mem_map_of_mem _ he)
  simpa using this

theorem mem_erase (m : List (ABI45_0_0EXGLContextId × ContextState))
    (id : ABI45_0_0EXGLContextId) (e : ABI45_0_0EXGLContextId × ContextState) :
    e ∈ erase m id ↔ e ∈ m ∧ e.1 ≠ id := by
  simp [erase, List.mem_filter]

theorem keys_adjust (f : ContextState → ContextState)
    (m : List (ABI45_0_0EXGLContextId × ContextState)) (id : ABI45_0_0EXGLContextId) :
    keys (adjust f m id) = keys m := by
  induction m with
  | nil => simp [adjust]
  | cons e rest ih =>
    obtain ⟨k, st⟩ := e
    by_cases hk : k = id
    · simp [adjust, keys, hk]
    · simp only [keys] at ih
      simp [adjust, keys, hk, ih]

theorem find_adjust_self (f : ContextState → ContextState)
    (m : List (ABI45_0_0EXGLContextId × ContextState)) (id : ABI45_0_0EXGLContextId) :
    find (adjust f m id) id = (find m id).map f := by
  induction m with
  | nil => simp [adjust, find]
  | cons e rest ih =>
    obtain ⟨k, st⟩ := e
    by_cases hk : k = id
    · simp [adjust, find, hk]
    · simp [adjust, find, hk, ih]

theorem find_adjust_ne (f : ContextState → ContextState)
    (m : List (ABI45_0_0EXGLContextId × ContextState)) (id k : ABI45_0_0EXGLContextId)
    (h : k ≠ id) : find (adjust f m id) k = find m k := by
  induction m with
  | nil => simp [adjust, find]
  | cons e rest ih =>
    obtain ⟨k1, st⟩ := e
    by_cases hk : k1 = id
    · subst hk
      have hne : ¬ k1 = k := fun h2 => h h2.symm
      simp [adjust, find, hne]
    · by_cases hk2 : k1 = k
      · subst hk2
        simp [adjust, find, hk]
      · simp [adjust, find, hk, hk2, ih]

theorem adjust_of_not_mem (f : ContextState → ContextState)
    (m : List (ABI45_0_0EXGLContextId × ContextState)) (id : ABI45_0_0EXGLContextId)
    (h : id ∉ keys m) : adjust f m id = m := by
  induction m with
  | nil => simp [adjust]
  | cons e rest ih =>
    obtain ⟨k, st⟩ := e
    simp only [keys, List.map_cons, List.mem_cons, not_or] at h
    have hk : ¬ k = id := fun h2 => h.1 h2.symm
    simp only [adjust, hk, if_false]
    rw [ih h.2]

/-- Every entry of an adjusted map is an entry of the map, up to `f` at key `id`. -/
theorem mem_adjust (f : ContextState → ContextState)
    (m : List (ABI45_0_0EXGLContextId × ContextState)) (id : ABI45_0_0EXGLContextId)
    (e : ABI45_0_0EXGLContextId × ContextState) (h : e ∈ adjust f m id) :
    e ∈ m ∨ (e.1 = id ∧ ∃ st, (id, st) ∈ m ∧ e.2 = f st) := by
  induction m with
  | nil => simp [adjust] at h
  | cons e1 rest ih =>
    obtain ⟨k, st⟩ := e1
    by_cases hk : k = id
    · simp only [adjust, hk, if_true, List.mem_cons] at h
      rcases h with h | h
      · right
        subst h
        exact ⟨rfl, st, by simp [hk], rfl⟩
      · left
        exact List.mem_cons_of_mem _ h
    · simp only [adjust, hk, if_false, List.mem_cons] at h
      rcases h with h | h
      · left
        simp [h]
      · rcases ih h with h2 | ⟨h2, s, hs, h3⟩
        · left
          exact List.mem_cons_of_mem _ h2
        · right
          exact ⟨h2, s, List.mem_cons_of_mem _ hs, h3⟩

/-! ## Single calls -/

/-- C4: for every state and every handle `h` that is not a key of the map,
`ContextDestroy(h)` returns and changes nothing: the map, `nextId`, the free store
(no context is freed) and the log are the ones it started from. -/
theorem ContextDestroy_absent_noop (w : World) (h : ABI45_0_0EXGLContextId)
    (habs : h ∉ keys w.manager.contextMap) : ContextDestroy h w = some w := by
  have hf : find w.manager.contextMap h = none := (find_eq_none_iff _ _).2 habs
  simp [ContextDestroy, hf]

theorem ContextDestroy_absent_noop_witness :
    (0 : ABI45_0_0EXGLContextId) ∉ keys initial.manager.contextMap ∧
      ContextDestroy 0 initial = some initial :=
  ⟨by decide, ContextDestroy_absent_noop initial 0 (by decide)⟩

/-- C5: in every state whose `nextId` has reached the largest id value,
`ContextCreate` returns the sentinel 0, appends the out-of-ids message to the log,
allocates nothing and leaves `contextMap` and `nextId` as they were. -/
theorem ContextCreate_exhausted (maxId : Nat) (w : World)
    (hmax : w.manager.nextId = maxId) :
    (ContextCreate maxId w).1 = 0 ∧
      (ContextCreate maxId w).2.syslog
        = w.syslog ++ ["Ran out of ABI45_0_0EXGLContext ids!"] ∧
      (ContextCreate maxId w).2.heap = w.heap ∧
      (ContextCreate maxId w).2.manager.contextMap = w.manager.contextMap ∧
      (ContextCreate maxId w).2.manager.nextId = w.manager.nextId := by
  have hge : w.manager.nextId ≥ maxId := by rw [hmax]
  simp [ContextCreate, hge]

theorem ContextCreate_exhausted_witness :
    initial.manager.nextId = 1 ∧
      ((ContextCreate 1 initial).1 = 0 ∧
        (ContextCreate 1 initial).2.syslog
          = initial.syslog ++ ["Ran out of ABI45_0_0EXGLContext ids!"] ∧
        (ContextCreate 1 initial).2.heap = initial.heap ∧
        (ContextCreate 1 initial).2.manager.contextMap = initial.manager.contextMap ∧
        (ContextCreate 1 initial).2.manager.nextId = initial.manager.nextId) :=
  ⟨rfl, ContextCreate_exhausted 1 initial rfl⟩

/-- C6: for every state and handle `h`, `ContextGet(h)` returns a null context exactly
when `h` is not a key or the entry of `h` has a null `ctx`; in both cases the result
is the same pair (null context, lock owning no mutex) and the state is untouched.
Otherwise the result is the `ctx` stored in the entry of `h` with a lock owning the
mutex of that entry, which has gained one shared owner. -/
theorem ContextGet_spec (w : World) (h : ABI45_0_0EXGLContextId) :
    ((ContextGet h w).1.ctx = none ↔
        (h ∉ keys w.manager.contextMap ∨
          ∃ st, find w.manager.contextMap h = some st ∧ st.ctx = none)) ∧
      (h ∉ keys w.manager.contextMap →
        ContextGet h w = ({ ctx := none, lock := none }, w)) ∧
      (∀ st, find w.manager.contextMap h = some st → st.ctx = none →
        ContextGet h w = ({ ctx := none, lock := none }, w)) ∧
      (∀ st a, find w.manager.contextMap h = some st → st.ctx = some a →
        (ContextGet h w).1 = { ctx := some a, lock := some h } ∧
        find (ContextGet h w).2.manager.contextMap h
          = some { ctx := some a, mutex := { shared := st.mutex.shared + 1 } } ∧
        (∀ k, k ≠ h → find (ContextGet h w).2.manager.contextMap k
          = find w.manager.contextMap k) ∧
        keys (ContextGet h w).2.manager.contextMap = keys w.manager.contextMap ∧
        (ContextGet h w).2.manager.nextId = w.manager.nextId ∧
        (ContextGet h w).2.heap = w.heap ∧
        (ContextGet h w).2.syslog = w.syslog) := by
  refine ⟨?_, ?_, ?_, ?_⟩
  · cases hf : find w.manager.contextMap h with
    | none =>
      have hk : h ∉ keys w.manager.contextMap := (find_eq_none_iff _ _).1 hf
      simp [ContextGet, hf, hk]
    | some st =>
      have hk : h ∈ keys w.manager.contextMap := mem_keys_of_find _ _ _ hf
      by_cases hc : st.ctx = none
      · simp [ContextGet, hf, hc, hk]
      · simp [ContextGet, hf, hc, hk]
  · intro hk
    have hf : find w.manager.contextMap h = none := (find_eq_none_iff _ _).2 hk
    simp [ContextGet, hf]
  · intro st hf hc
    simp [ContextGet, hf, hc]
  · intro st a hf hc
    have hne : ¬ st.ctx = none := by simp [hc]
    refine ⟨?_, ?_, ?_, ?_, ?_, ?_, ?_⟩
    · simp [ContextGet, hf, hc]
    · simp [ContextGet, hf, hc, find_adjust_self]
    · intro k hk
      simp [ContextGet, hf, hc, find_adjust_ne _ _ _ _ hk]
    · simp [ContextGet, hf, hc, keys_adjust]
    · simp [ContextGet, hf, hc]
    · simp [ContextGet, hf, hc]
    · simp [ContextGet, hf, hc]

/-- The result of `ContextCreate` when the counter is not exhausted and `nextId` is
not a key. -/
theorem ContextCreate_fresh (maxId : Nat) (w : World)
    (hlt : w.manager.nextId < maxId)
    (hfresh : w.manager.nextId ∉ keys w.manager.contextMap) :
    ContextCreate maxId w = (w.manager.nextId,
      { w with
        manager := {
          contextMap :=
            (w.manager.nextId, { ctx := some w.heap.length, mutex := { shared := 0 } })
              :: w.manager.contextMap
          nextId := w.manager.nextId + 1 }
        heap := w.heap ++ [{ obj := { ctxId := w.manager.nextId }, deletes := 0 }] }) := by
  have hge : ¬ w.manager.nextId ≥ maxId := Nat.not_le.2 hlt
  have hf : find w.manager.contextMap w.manager.nextId = none :=
    (find_eq_none_iff _ _).2 hfresh
  have hmod : (w.manager.nextId + 1) % (maxId + 1) = w.manager.nextId + 1 :=
    Nat.mod_eq_of_lt (Nat.succ_lt_succ hlt)
  simp [ContextCreate, hge, hf, hmod, subscript, adjust, heapNew]

/-- The result of `ContextCreate` when the counter is exhausted. -/
theorem ContextCreate_full (maxId : Nat) (w : World) (hge : maxId ≤ w.manager.nextId) :
    ContextCreate maxId w
      = (0, { w with syslog := w.syslog ++ ["Ran out of ABI45_0_0EXGLContext ids!"] }) := by
  have hge2 : w.manager.nextId ≥ maxId := hge
  simp [ContextCreate, hge2]

/-- C7: in every state with `nextId` below the largest id value and `nextId` not a
key, `ContextCreate` returns the old `nextId`, makes `nextId` one larger, allocates
one context constructed with the returned handle (at an address the free store did
not have), puts exactly one new entry, keyed by the handle and holding that context,
in front of the otherwise unchanged map, logs nothing, and a `ContextGet` of the
returned handle right afterwards returns that context. -/
theorem ContextCreate_success (maxId : Nat) (w : World)
    (hlt : w.manager.nextId < maxId)
    (hfresh : w.manager.nextId ∉ keys w.manager.contextMap) :
    (ContextCreate maxId w).1 = w.manager.nextId ∧
      (ContextCreate maxId w).2.manager.nextId = w.manager.nextId + 1 ∧
      (ContextCreate maxId w).2.heap
        = w.heap ++ [{ obj := { ctxId := w.manager.nextId }, deletes := 0 }] ∧
      w.heap[w.heap.length]? = none ∧
      (ContextCreate maxId w).2.heap[w.heap.length]?
        = some { obj := { ctxId := w.manager.nextId }, deletes := 0 } ∧
      (ContextCreate maxId w).2.manager.contextMap
        = (w.manager.nextId, { ctx := some w.heap.length, mutex := { shared := 0 } })
            :: w.manager.contextMap ∧
      (∀ k, k ≠ w.manager.nextId →
        find (ContextCreate maxId w).2.manager.contextMap k = find w.manager.contextMap k) ∧
      (ContextCreate maxId w).2.syslog = w.syslog ∧
      (ContextGet (ContextCreate maxId w).1 (ContextCreate maxId w).2).1
        = { ctx := some w.heap.length, lock := some w.manager.nextId } := by
  rw [ContextCreate_fresh maxId w hlt hfresh]
  refine ⟨rfl, rfl, rfl, by simp, by simp, rfl, ?_, rfl, ?_⟩
  · intro k hk
    have hk2 : ¬ w.manager.nextId = k := fun h => hk h.symm
    simp [find, hk2]
  · simp [ContextGet, find]

theorem ContextCreate_success_witness :
    (ContextCreate 3 initial).1 = initial.manager.nextId ∧
      (ContextCreate 3 initial).2.manager.nextId = initial.manager.nextId + 1 ∧
      (ContextCreate 3 initial).2.heap
        = initial.heap ++ [{ obj := { ctxId := initial.manager.nextId }, deletes := 0 }] ∧
      initial.heap[initial.heap.length]? = none ∧
      (ContextCreate 3 initial).2.heap[initial.heap.length]?
        = some { obj := { ctxId := initial.manager.nextId }, deletes := 0 } ∧
      (ContextCreate 3 initial).2.manager.contextMap
        = (initial.manager.nextId,
            { ctx := some initial.heap.length, mutex := { shared := 0 } })
            :: initial.manager.contextMap ∧
      (∀ k, k ≠ initial.manager.nextId →
        find (ContextCreate 3 initial).2.manager.contextMap k
          = find initial.manager.contextMap k) ∧
      (ContextCreate 3 initial).2.syslog = initial.syslog ∧
      (ContextGet (ContextCreate 3 initial).1 (ContextCreate 3 initial).2).1
        = { ctx := some initial.heap.length, lock := some initial.manager.nextId } :=
  ContextCreate_success 3 initial (by decide) (by decide)

/-- The call `ContextDestroy(h)` returns exactly when the entry of `h`, if there is
one, has no shared owner. -/
theorem ContextDestroy_isSome_iff (w : World) (h : ABI45_0_0EXGLContextId) :
    (ContextDestroy h w).isSome ↔
      ∀ st, find w.manager.contextMap h = some st → st.mutex.shared = 0 := by
  cases hf : find w.manager.contextMap h with
  | none => simp [ContextDestroy, hf]
  | some st =>
    by_cases hs : st.mutex.shared = 0
    · simp [ContextDestroy, hf, hs]
    · simp [ContextDestroy, hf, hs]

/-- What `ContextDestroy(h)` does to a present entry without shared owners. -/
theorem ContextDestroy_present (w : World) (h : ABI45_0_0EXGLContextId) (st : ContextState)
    (hf : find w.manager.contextMap h = some st) (hs : st.mutex.shared = 0) :
    ContextDestroy h w = some { w with
      heap := heapDelete w.heap st.ctx
      manager := { w.manager with contextMap := erase w.manager.contextMap h } } := by
  simp [ContextDestroy, hf, hs]

/-- The state after a `ContextDestroy(h)` that returned. -/
theorem ContextDestroy_some (w w1 : World) (h : ABI45_0_0EXGLContextId)
    (hd : ContextDestroy h w = some w1) :
    w1.manager.contextMap = erase w.manager.contextMap h ∧
      w1.manager.nextId = w.manager.nextId ∧ w1.syslog = w.syslog ∧
      w1.heap = heapDelete w.heap ((find w.manager.contextMap h).bind (fun st => st.ctx)) := by
  cases hf : find w.manager.contextMap h with
  | none =>
    have hk : h ∉ keys w.manager.contextMap := (find_eq_none_iff _ _).1 hf
    simp only [ContextDestroy, hf, Option.some.injEq] at hd
    subst hd
    simp [erase_of_not_mem _ _ hk, heapDelete]
  | some st =>
    by_cases hs : st.mutex.shared = 0
    · simp only [ContextDestroy, hf, hs, ne_eq, not_true_eq_false, if_false,
        Option.some.injEq] at hd
      subst hd
      simp
    · simp [ContextDestroy, hf, hs] at hd

/-- C9: for every state and distinct handles `h`, `h1`, a `ContextDestroy(h)` that
returns leaves the entry of `h1` and `nextId` unchanged, so `ContextGet(h1)` gives the
same result after it as before it, and `h` is the only key that can leave the map. -/
theorem ContextDestroy_frame (w w1 : World) (h h1 : ABI45_0_0EXGLContextId)
    (hne : h ≠ h1) (hd : ContextDestroy h w = some w1) :
    find w1.manager.contextMap h1 = find w.manager.contextMap h1 ∧
      w1.manager.nextId = w.manager.nextId ∧
      (ContextGet h1 w1).1 = (ContextGet h1 w).1 ∧
      (∀ k, k ∈ keys w.manager.contextMap → k ∉ keys w1.manager.contextMap → k = h) := by
  obtain ⟨hm, hn, -, -⟩ := ContextDestroy_some w w1 h hd
  have hfind : find w1.manager.contextMap h1 = find w.manager.contextMap h1 := by
    rw [hm]
    exact find_erase_ne _ _ _ (fun e => hne e.symm)
  refine ⟨hfind, hn, ?_, ?_⟩
  · simp only [ContextGet, hfind]
    cases find w.manager.contextMap h1 with
    | none => rfl
    | some st =>
      by_cases hc : st.ctx = none
      · simp [hc]
      · simp [hc]
  · intro k hk hk1
    by_contra hkh
    have h1 : find w.manager.contextMap k ≠ none := by
      rw [Ne, find_eq_none_iff]
      exact fun hn => hn hk
    have h2 : find w1.manager.contextMap k = none := (find_eq_none_iff _ _).2 hk1
    rw [hm, find_erase_ne _ _ _ hkh] at h2
    exact h1 h2

/-! ## Facts about the free store -/

theorem getElem?_deleteAt_self (l : List HeapCell) (a : Nat) :
    (deleteAt l a)[a]? = (l[a]?).map (fun c => { c with deletes := c.deletes + 1 }) := by
  induction l generalizing a with
  | nil => simp [deleteAt]
  | cons c cs ih =>
    cases a with
    | zero => simp [deleteAt]
    | succ n => simp [deleteAt, ih]

theorem getElem?_deleteAt_ne (l : List HeapCell) (a b : Nat) (h : b ≠ a) :
    (deleteAt l a)[b]? = l[b]? := by
  induction l generalizing a b with
  | nil => simp [deleteAt]
  | cons c cs ih =>
    cases a with
    | zero =>
      cases b with
      | zero => exact absurd rfl h
      | succ m => simp [deleteAt]
    | succ n =>
      cases b with
      | zero => simp [deleteAt]
      | succ m =>
        have hmn : m ≠ n := fun e => h (by rw [e])
        simp [deleteAt, ih n m hmn]

theorem mem_deleteAt (l : List HeapCell) (a : Nat) (c : HeapCell) (h : c ∈ deleteAt l a) :
    c ∈ l ∨ ∃ c0, l[a]? = some c0 ∧ c = { c0 with deletes := c0.deletes + 1 } := by
  induction l generalizing a with
  | nil => simp [deleteAt] at h
  | cons c1 cs ih =>
    cases a with
    | zero =>
      simp only [deleteAt, List.mem_cons] at h
      rcases h with h | h
      · right
        exact ⟨c1, by simp, h⟩
      · left
        exact List.mem_cons_of_mem _ h
    | succ n =>
      simp only [deleteAt, List.mem_cons] at h
      rcases h with h | h
      · left
        simp [h]
      · rcases ih n h with h2 | ⟨c0, h2, h3⟩
        · left
          exact List.mem_cons_of_mem _ h2
        · right
          exact ⟨c0, by simpa using h2, h3⟩

/-! ## The invariant -/

theorem Inv_initial (maxId : Nat) : Inv maxId initial := by
  refine ⟨by decide, ?_, ?_, ?_⟩
  · intro h
    exact h
  · intro e he
    simp [initial, manager] at he
  · intro c hc
    simp [initial] at hc

theorem not_mem_keys_nextId (maxId : Nat) (w : World) (hinv : Inv maxId w) :
    w.manager.nextId ∉ keys w.manager.contextMap := by
  intro hk
  obtain ⟨e, he, hek⟩ := List.mem_map.1 hk
  have h1 := (hinv.2.2.1 e he).2.1
  rw [hek] at h1
  exact Nat.lt_irrefl _ h1

theorem Inv_ContextCreate (maxId : Nat) (w : World) (hinv : Inv maxId w) :
    Inv maxId (ContextCreate maxId w).2 := by
  by_cases hlt : w.manager.nextId < maxId
  · rw [ContextCreate_fresh maxId w hlt (not_mem_keys_nextId maxId w hinv)]
    obtain ⟨h1, h2, h3, h4⟩ := hinv
    refine ⟨?_, ?_, ?_, ?_⟩
    · exact Nat.le_succ_of_le h1
    · intro _
      exact hlt
    · intro e he
      simp only [List.mem_cons] at he
      rcases he with he | he
      · subst he
        refine ⟨h1, Nat.lt_succ_self _, hlt, w.heap.length, rfl, ?_⟩
        simp
      · obtain ⟨ha, hb, hc, a, hd, hcell⟩ := h3 e he
        refine ⟨ha, Nat.lt_succ_of_lt hb, hc, a, hd, ?_⟩
        have hlen : a < w.heap.length := by
          by_contra hn
          rw [List.getElem?_eq_none (Nat.le_of_not_lt hn)] at hcell
          cases hcell
        simpa [List.getElem?_append_left hlen] using hcell
    · intro c hc
      simp only [List.mem_append, List.mem_singleton] at hc
      rcases hc with hc | hc
      · exact h4 c hc
      · subst hc
        exact Nat.zero_le _
  · rw [ContextCreate_full maxId w (Nat.le_of_not_lt hlt)]
    exact hinv

theorem Inv_adjust_mutex (maxId : Nat) (w : World) (id : ABI45_0_0EXGLContextId)
    (g : SharedMutex → SharedMutex) (hinv : Inv maxId w) :
    Inv maxId { w with manager := { w.manager with
      contextMap := adjust (fun s => { s with mutex := g s.mutex }) w.manager.contextMap id } } := by
  obtain ⟨h1, h2, h3, h4⟩ := hinv
  refine ⟨h1, h2, ?_, h4⟩
  intro e he
  rcases mem_adjust _ _ _ _ he with he2 | ⟨hk, st, hst, hval⟩
  · exact h3 e he2
  · have h5 := h3 (id, st) hst
    rw [hk, hval]
    exact h5

theorem Inv_ContextGet (maxId : Nat) (w : World) (id : ABI45_0_0EXGLContextId)
    (hinv : Inv maxId w) : Inv maxId (ContextGet id w).2 := by
  unfold ContextGet
  cases find w.manager.contextMap id with
  | none => exact hinv
  | some st =>
    by_cases hc : st.ctx = none
    · simpa [hc] using hinv
    · simp only [hc, if_false]
      exact Inv_adjust_mutex maxId w id (fun m => { shared := m.shared + 1 }) hinv

theorem Inv_unlockShared (maxId : Nat) (w : World) (id : ABI45_0_0EXGLContextId)
    (hinv : Inv maxId w) : Inv maxId (unlockShared (some id) w) :=
  Inv_adjust_mutex maxId w id (fun m => { shared := m.shared - 1 }) hinv

theorem Inv_ContextDestroy (maxId : Nat) (w w1 : World) (id : ABI45_0_0EXGLContextId)
    (hinv : Inv maxId w) (hd : ContextDestroy id w = some w1) : Inv maxId w1 := by
  obtain ⟨hm, hn, -, hh⟩ := ContextDestroy_some w w1 id hd
  obtain ⟨h1, h2, h3, h4⟩ := hinv
  cases hf : find w.manager.contextMap id with
  | none =>
    have hk : id ∉ keys w.manager.contextMap := (find_eq_none_iff _ _).1 hf
    rw [hf] at hh
    rw [erase_of_not_mem _ _ hk] at hm
    refine ⟨hn ▸ h1, hn ▸ h2, ?_, ?_⟩
    · intro e he
      rw [hm] at he
      rw [hn, hh]
      exact h3 e he
    · intro c hc
      rw [hh] at hc
      exact h4 c hc
  | some st =>
    rw [hf] at hh
    obtain ⟨-, -, -, a, hctx, hcell⟩ := h3 (id, st) (mem_of_find _ _ _ hf)
    simp only [Option.some_bind] at hh
    have hctx2 : st.ctx = some a := hctx
    rw [hctx2] at hh
    refine ⟨hn ▸ h1, hn ▸ h2, ?_, ?_⟩
    · intro e he
      rw [hm, mem_erase] at he
      obtain ⟨ha, hb, hc, b, hd2, hcellb⟩ := h3 e he.1
      refine ⟨ha, hn ▸ hb, hc, b, hd2, ?_⟩
      have hba : b ≠ a := by
        intro hab
        rw [hab, hcell] at hcellb
        simp only [Option.some.injEq, HeapCell.mk.injEq, ABI45_0_0EXGLContext.mk.injEq,
          and_true] at hcellb
        exact he.2 hcellb.symm
      rw [hh]
      simp only [heapDelete]
      rw [getElem?_deleteAt_ne _ _ _ hba]
      exact hcellb
    · intro c hc
      rw [hh] at hc
      simp only [heapDelete] at hc
      rcases mem_deleteAt _ _ _ hc with hc2 | ⟨c0, hc0, hc1⟩
      · exact h4 c hc2
      · rw [hcell] at hc0
        simp only [Option.some.injEq] at hc0
        subst hc0
        subst hc1
        exact Nat.le_refl 1

theorem Inv_step (maxId : Nat) (w w1 : World) (c : Call) (r : Ret) (hinv : Inv maxId w)
    (hs : step maxId w c = some (r, w1)) : Inv maxId w1 := by
  cases c with
  | create =>
    simp only [step, Option.some.injEq, Prod.mk.injEq] at hs
    rw [← hs.2]
    exact Inv_ContextCreate maxId w hinv
  | get id =>
    simp only [step, Option.some.injEq, Prod.mk.injEq] at hs
    rw [← hs.2]
    exact Inv_ContextGet maxId w id hinv
  | destroy id =>
    simp only [step] at hs
    cases hd : ContextDestroy id w with
    | none => simp [hd] at hs
    | some w2 =>
      simp only [hd, Option.some.injEq, Prod.mk.injEq] at hs
      rw [← hs.2]
      exact Inv_ContextDestroy maxId w w2 id hinv hd
  | drop id =>
    simp only [step, Option.some.injEq, Prod.mk.injEq] at hs
    rw [← hs.2]
    exact Inv_unlockShared maxId w id hinv

theorem run_nil (maxId : Nat) (w : World) : run maxId w [] = ([], w) := rfl

theorem run_cons_none (maxId : Nat) (w : World) (c : Call) (cs : List Call)
    (hs : step maxId w c = none) : run maxId w (c :: cs) = ([], w) := by
  simp [run, hs]

theorem run_cons_some (maxId : Nat) (w w1 : World) (c : Call) (cs : List Call) (r : Ret)
    (hs : step maxId w c = some (r, w1)) :
    run maxId w (c :: cs) = (r :: (run maxId w1 cs).1, (run maxId w1 cs).2) := by
  simp [run, hs]

theorem Inv_run (maxId : Nat) (cs : List Call) (w : World) (hinv : Inv maxId w) :
    Inv maxId (run maxId w cs).2 := by
  induction cs generalizing w with
  | nil => exact hinv
  | cons c cs ih =>
    cases hs : step maxId w c with
    | none =>
      rw [run_cons_none maxId w c cs hs]
      exact hinv
    | some p =>
      obtain ⟨r, w1⟩ := p
      rw [run_cons_some maxId w w1 c cs r hs]
      exact ih w1 (Inv_step maxId w w1 c r hinv hs)

/-! ## Runs -/

/-- Under the invariant `ContextCreate` either issues `nextId` or is exhausted. -/
theorem ContextCreate_cases (maxId : Nat) (w : World) (hinv : Inv maxId w) :
    (w.manager.nextId < maxId ∧ (ContextCreate maxId w).1 = w.manager.nextId ∧
        (ContextCreate maxId w).2.manager.nextId = w.manager.nextId + 1 ∧
        keys (ContextCreate maxId w).2.manager.contextMap
          = w.manager.nextId :: keys w.manager.contextMap) ∨
      (maxId ≤ w.manager.nextId ∧ (ContextCreate maxId w).1 = 0 ∧
        (ContextCreate maxId w).2.manager = w.manager) := by
  by_cases hlt : w.manager.nextId < maxId
  · left
    rw [ContextCreate_fresh maxId w hlt (not_mem_keys_nextId maxId w hinv)]
    exact ⟨hlt, rfl, rfl, rfl⟩
  · right
    rw [ContextCreate_full maxId w (Nat.le_of_not_lt hlt)]
    exact ⟨Nat.le_of_not_lt hlt, rfl, rfl⟩

/-- An action other than a `ContextCreate` keeps `nextId` and adds no key. -/
theorem step_other (maxId : Nat) (w w1 : World) (c : Call) (r : Ret)
    (hc : c ≠ Call.create) (hs : step maxId w c = some (r, w1)) :
    (∀ x, r ≠ Ret.created x) ∧ w1.manager.nextId = w.manager.nextId ∧
      ∀ k ∈ keys w1.manager.contextMap, k ∈ keys w.manager.contextMap := by
  cases c with
  | create => exact absurd rfl hc
  | get id =>
    simp only [step, Option.some.injEq, Prod.mk.injEq] at hs
    obtain ⟨hr, hw⟩ := hs
    subst hr
    subst hw
    refine ⟨fun x h => (by cases h), ?_, ?_⟩
    · unfold ContextGet
      cases find w.manager.contextMap id with
      | none => rfl
      | some st =>
        by_cases hctx : st.ctx = none
        · simp [hctx]
        · simp [hctx]
    · intro k hk
      unfold ContextGet at hk
      cases hf : find w.manager.contextMap id with
      | none => simpa [hf] using hk
      | some st =>
        by_cases hctx : st.ctx = none
        · simpa [hf, hctx] using hk
        · simpa [hf, hctx, keys_adjust] using hk
  | destroy id =>
    simp only [step] at hs
    cases hd : ContextDestroy id w with
    | none => simp [hd] at hs
    | some w2 =>
      simp only [hd, Option.some.injEq, Prod.mk.injEq] at hs
      obtain ⟨hr, hw⟩ := hs
      subst hr
      subst hw
      obtain ⟨hm, hn, -, -⟩ := ContextDestroy_some w w2 id hd
      refine ⟨fun x h => (by cases h), hn, ?_⟩
      intro k hk
      rw [hm] at hk
      obtain ⟨e, he, hek⟩ := List.mem_map.1 hk
      rw [← hek]
      exact List.mem_map_of_mem _ ((mem_erase _ _ _).1 he).1
  | drop id =>
    simp only [step, Option.some.injEq, Prod.mk.injEq] at hs
    obtain ⟨hr, hw⟩ := hs
    subst hr
    subst hw
    refine ⟨fun x h => (by cases h), rfl, ?_⟩
    intro k hk
    simpa [unlockShared, keys_adjust] using hk

theorem createResults_cons_other (r : Ret) (rs : List Ret) (h : ∀ x, r ≠ Ret.created x) :
    createResults (r :: rs) = createResults rs := by
  cases r with
  | created x => exact absurd rfl (h x)
  | got t => rfl
  | destroyed => rfl
  | dropped => rfl

theorem createResults_cons_created (x : ABI45_0_0EXGLContextId) (rs : List Ret) :
    createResults (Ret.created x :: rs) = x :: createResults rs := rfl

/-- The handles a run issues from a state satisfying the invariant lie between the
`nextId` it starts with and the `nextId` it ends with, are below `maxId`, are strictly
increasing, and every key of the final map is an old key or an issued handle. -/
theorem run_handles (maxId : Nat) (cs : List Call) (w : World) (hinv : Inv maxId w) :
    (∀ x ∈ issuedHandles (run maxId w cs).1,
        w.manager.nextId ≤ x ∧ x < (run maxId w cs).2.manager.nextId ∧ x < maxId) ∧
      (issuedHandles (run maxId w cs).1).Pairwise (· < ·) ∧
      w.manager.nextId ≤ (run maxId w cs).2.manager.nextId ∧
      (∀ k ∈ keys (run maxId w cs).2.manager.contextMap,
        k ∈ keys w.manager.contextMap ∨ k ∈ issuedHandles (run maxId w cs).1) := by
  induction cs generalizing w with
  | nil =>
    refine ⟨?_, ?_, Nat.le_refl _, ?_⟩
    · intro x hx
      simp [run, issuedHandles, createResults] at hx
    · simp [run, issuedHandles, createResults]
    · intro k hk
      exact Or.inl hk
  | cons c cs ih =>
    cases hs : step maxId w c with
    | none =>
      rw [run_cons_none maxId w c cs hs]
      refine ⟨?_, ?_, Nat.le_refl _, ?_⟩
      · intro x hx
        simp [issuedHandles, createResults] at hx
      · simp [issuedHandles, createResults]
      · intro k hk
        exact Or.inl hk
    | some p =>
      obtain ⟨r, w1⟩ := p
      rw [run_cons_some maxId w w1 c cs r hs]
      have hinv1 : Inv maxId w1 := Inv_step maxId w w1 c r hinv hs
      obtain ⟨ih1, ih2, ih3, ih4⟩ := ih w1 hinv1
      by_cases hc : c = Call.create
      · subst hc
        simp only [step, Option.some.injEq, Prod.mk.injEq] at hs
        obtain ⟨hr, hw⟩ := hs
        rcases ContextCreate_cases maxId w hinv with ⟨hlt, hres, hnext, hkeys⟩ | ⟨hge, hres, hman⟩
        · rw [hw] at hnext hkeys
          rw [hres] at hr
          have hpos : w.manager.nextId ≠ 0 := Nat.ne_of_gt hinv.1
          have hiss : issuedHandles (r :: (run maxId w1 cs).1)
              = w.manager.nextId :: issuedHandles (run maxId w1 cs).1 := by
            rw [← hr]
            simp [issuedHandles, createResults, hpos]
          rw [hiss]
          refine ⟨?_, ?_, ?_, ?_⟩
          · intro x hx
            simp only [List.mem_cons] at hx
            rcases hx with hx | hx
            · subst hx
              refine ⟨Nat.le_refl _, ?_, hlt⟩
              exact Nat.lt_of_lt_of_le (by rw [hnext]; exact Nat.lt_succ_self _) ih3
            · obtain ⟨ha, hb, hc⟩ := ih1 x hx
              rw [hnext] at ha
              exact ⟨Nat.le_of_succ_le ha, hb, hc⟩
          · rw [List.pairwise_cons]
            refine ⟨?_, ih2⟩
            intro x hx
            have ha := (ih1 x hx).1
            rw [hnext] at ha
            exact ha
          · rw [hnext] at ih3
            exact Nat.le_of_succ_le ih3
          · intro k hk
            rcases ih4 k hk with h5 | h5
            · rw [hkeys] at h5
              simp only [List.mem_cons] at h5
              rcases h5 with h5 | h5
              · right
                simp [h5]
              · left
                exact h5
            · right
              exact List.mem_cons_of_mem _ h5
        · rw [hw] at hman
          rw [hres] at hr
          have hiss : issuedHandles (r :: (run maxId w1 cs).1)
              = issuedHandles (run maxId w1 cs).1 := by
            rw [← hr]
            simp [issuedHandles, createResults]
          rw [hiss]
          rw [hman] at ih1 ih3 ih4
          exact ⟨ih1, ih2, ih3, ih4⟩
      · obtain ⟨hr, hn, hk⟩ := step_other maxId w w1 c r hc hs
        have hiss : issuedHandles (r :: (run maxId w1 cs).1)
            = issuedHandles (run maxId w1 cs).1 := by
          simp [issuedHandles, createResults_cons_other r _ hr]
        rw [hiss]
        rw [hn] at ih1 ih3
        refine ⟨ih1, ih2, ih3, ?_⟩
        intro k hk2
        rcases ih4 k hk2 with h5 | h5
        · exact Or.inl (hk k h5)
        · exact Or.inr h5

/-- From a state satisfying the invariant, the `i`-th `ContextCreate` of a run
(counting from 0) returns `nextId + i` while that is below `maxId`, and 0 afterwards. -/
theorem run_createResults (maxId : Nat) (cs : List Call) (w : World) (hinv : Inv maxId w)
    (i : Nat) (x : ABI45_0_0EXGLContextId)
    (hx : (createResults (run maxId w cs).1)[i]? = some x) :
    x = if w.manager.nextId + i < maxId then w.manager.nextId + i else 0 := by
  induction cs generalizing w i with
  | nil => simp [run, createResults] at hx
  | cons c cs ih =>
    cases hs : step maxId w c with
    | none =>
      rw [run_cons_none maxId w c cs hs] at hx
      simp [createResults] at hx
    | some p =>
      obtain ⟨r, w1⟩ := p
      rw [run_cons_some maxId w w1 c cs r hs] at hx
      have hinv1 : Inv maxId w1 := Inv_step maxId w w1 c r hinv hs
      by_cases hc : c = Call.create
      · subst hc
        simp only [step, Option.some.injEq, Prod.mk.injEq] at hs
        obtain ⟨hr, hw⟩ := hs
        rw [← hr, createResults_cons_created] at hx
        rcases ContextCreate_cases maxId w hinv with ⟨hlt, hres, hnext, -⟩ | ⟨hge, hres, hman⟩
        · rw [hw] at hnext
          cases i with
          | zero =>
            simp only [List.getElem?_cons_zero, Option.some.injEq] at hx
            rw [← hx, hres]
            simp [hlt]
          | succ j =>
            simp only [List.getElem?_cons_succ] at hx
            have h5 := ih w1 hinv1 j hx
            rw [hnext] at h5
            rw [h5]
            have h6 : w.manager.nextId + 1 + j = w.manager.nextId + (j + 1) := by
              simp only [ABI45_0_0EXGLContextId] at *
              omega
            rw [h6]
        · rw [hw] at hman
          cases i with
          | zero =>
            simp only [List.getElem?_cons_zero, Option.some.injEq] at hx
            rw [← hx, hres]
            have h7 : ¬ w.manager.nextId < maxId := Nat.not_lt.2 hge
            simp [h7]
          | succ j =>
            simp only [List.getElem?_cons_succ] at hx
            have h5 := ih w1 hinv1 j hx
            rw [hman] at h5
            rw [h5]
            have h7 : ¬ w.manager.nextId + j < maxId := by
              simp only [ABI45_0_0EXGLContextId] at *
              omega
            have h8 : ¬ w.manager.nextId + (j + 1) < maxId := by
              simp only [ABI45_0_0EXGLContextId] at *
              omega
            simp [h7, h8]
      · obtain ⟨hr, hn, -⟩ := step_other maxId w w1 c r hc hs
        rw [createResults_cons_other r _ hr] at hx
        have h5 := ih w1 hinv1 i hx
        rw [hn] at h5
        exact h5

/-- A handle that is neither a key nor still to be issued stays that way in every
run: it is never issued, never a key again, and `ContextGet` and `ContextDestroy` of
it find nothing. -/
theorem run_retired (maxId : Nat) (w : World) (hinv : Inv maxId w)
    (h : ABI45_0_0EXGLContextId) (hk : h ∉ keys w.manager.contextMap)
    (hh : ¬ (w.manager.nextId ≤ h ∧ h < maxId)) (post : List Call) :
    h ∉ issuedHandles (run maxId w post).1 ∧
      h ∉ keys (run maxId w post).2.manager.contextMap := by
  obtain ⟨h1, -, -, h4⟩ := run_handles maxId post w hinv
  have hiss : h ∉ issuedHandles (run maxId w post).1 := by
    intro hmem
    obtain ⟨ha, -, hc⟩ := h1 h hmem
    exact hh ⟨ha, hc⟩
  refine ⟨hiss, ?_⟩
  intro hmem
  rcases h4 h hmem with h5 | h5
  · exact hk h5
  · exact hiss h5

/-! ## The claims about runs -/

/-- C1: in every run from the initial registry the non-zero handles returned by
`ContextCreate`, in call order, are strictly increasing, hence pairwise distinct, and
after every number `n` of actions of the run every key of the map is one of the
handles issued so far. -/
theorem issued_handles_increasing (maxId : Nat) (cs : List Call) :
    (issuedHandles (run maxId initial cs).1).Pairwise (· < ·) ∧
      (issuedHandles (run maxId initial cs).1).Nodup ∧
      ∀ n, ∀ k ∈ keys (run maxId initial (cs.take n)).2.manager.contextMap,
        k ∈ issuedHandles (run maxId initial (cs.take n)).1 := by
  have hp := (run_handles maxId cs initial (Inv_initial maxId)).2.1
  refine ⟨hp, ?_, ?_⟩
  · exact hp.imp (fun hab => Nat.ne_of_lt hab)
  · intro n k hk
    rcases (run_handles maxId (cs.take n) initial (Inv_initial maxId)).2.2.2 k hk with h | h
    · simp [initial, manager, keys] at h
    · exact h

/-- C2, as the code has it: from every reachable state, once `ContextDestroy(h)` has
returned for a handle `h` that is not among the handles still to be issued (not
`nextId ≤ h < maxId`: every handle issued so far and the sentinel 0 are such), every
later `ContextGet(h)`, after any further actions, returns the not-found pair and
changes nothing, no later `ContextCreate` issues `h`, and `h` is never a key again. -/
theorem get_after_destroy_not_found (maxId : Nat) (pre : List Call)
    (h : ABI45_0_0EXGLContextId) (w1 : World) (post : List Call)
    (hd : ContextDestroy h (run maxId initial pre).2 = some w1)
    (hh : ¬ ((run maxId initial pre).2.manager.nextId ≤ h ∧ h < maxId)) :
    ContextGet h (run maxId w1 post).2
        = ({ ctx := none, lock := none }, (run maxId w1 post).2) ∧
      h ∉ issuedHandles (run maxId w1 post).1 ∧
      h ∉ keys (run maxId w1 post).2.manager.contextMap := by
  have hinv : Inv maxId (run maxId initial pre).2 := Inv_run maxId pre initial (Inv_initial maxId)
  have hinv1 : Inv maxId w1 := Inv_ContextDestroy maxId _ w1 h hinv hd
  obtain ⟨hm, hn, -, -⟩ := ContextDestroy_some _ w1 h hd
  have hk : h ∉ keys w1.manager.contextMap := by
    rw [← find_eq_none_iff, hm]
    exact find_erase_self _ _
  rw [← hn] at hh
  obtain ⟨h1, h2⟩ := run_retired maxId w1 hinv1 h hk hh post
  refine ⟨?_, h1, h2⟩
  have hf : find (run maxId w1 post).2.manager.contextMap h = none :=
    (find_eq_none_iff _ _).2 h2
  simp [ContextGet, hf]

/-- C8: in every run from the initial registry, for every `k` with `1 ≤ k < maxId`,
the `k`-th `ContextCreate` of the run returns `k`, whatever other actions come
between the creates. -/
theorem kth_create_returns_k (maxId : Nat) (cs : List Call) (k : Nat)
    (h1 : 1 ≤ k) (h2 : k < maxId)
    (h3 : k ≤ (createResults (run maxId initial cs).1).length) :
    (createResults (run maxId initial cs).1)[k - 1]? = some k := by
  have hlt : k - 1 < (createResults (run maxId initial cs).1).length := by omega
  have hget := List.getElem?_eq_getElem hlt
  have hval := run_createResults maxId cs initial (Inv_initial maxId) (k - 1) _ hget
  have hone : initial.manager.nextId = 1 := rfl
  rw [hone] at hval
  have hk : 1 + (k - 1) = k := by omega
  rw [hk] at hval
  simp only [h2, if_true] at hval
  rw [hget, hval]

/-- C10: in every state reached from the initial registry no object of the free
store has been deleted more than once; a `ContextDestroy(h)` that returns on a handle
`h` with an entry deletes exactly the object that entry points to (constructed with
`h`, not deleted before, deleted once after; every other object untouched) and erases
exactly the entry of `h`; and after any further actions `ContextDestroy(h)` returns
without changing anything, so nothing is freed or erased a second time. -/
theorem no_double_free (maxId : Nat) (cs : List Call) :
    (∀ c ∈ (run maxId initial cs).2.heap, c.deletes ≤ 1) ∧
      ∀ h st w1, find (run maxId initial cs).2.manager.contextMap h = some st →
        ContextDestroy h (run maxId initial cs).2 = some w1 →
        (∃ a, st.ctx = some a ∧
          (run maxId initial cs).2.heap[a]? = some { obj := { ctxId := h }, deletes := 0 } ∧
          w1.heap[a]? = some { obj := { ctxId := h }, deletes := 1 } ∧
          ∀ b, b ≠ a → w1.heap[b]? = (run maxId initial cs).2.heap[b]?) ∧
        w1.manager.contextMap = erase (run maxId initial cs).2.manager.contextMap h ∧
        find w1.manager.contextMap h = none ∧
        (∀ k, k ≠ h → find w1.manager.contextMap k
          = find (run maxId initial cs).2.manager.contextMap k) ∧
        ∀ post, ContextDestroy h (run maxId w1 post).2 = some (run maxId w1 post).2 := by
  have hinv : Inv maxId (run maxId initial cs).2 := Inv_run maxId cs initial (Inv_initial maxId)
  refine ⟨hinv.2.2.2, ?_⟩
  intro h st w1 hf hd
  have hinv1 : Inv maxId w1 := Inv_ContextDestroy maxId _ w1 h hinv hd
  obtain ⟨hm, hn, -, hh⟩ := ContextDestroy_some _ w1 h hd
  obtain ⟨-, hlt, -, a, hctx, hcell⟩ := hinv.2.2.1 (h, st) (mem_of_find _ _ _ hf)
  have hctx2 : st.ctx = some a := hctx
  rw [hf] at hh
  simp only [Option.some_bind, hctx2, heapDelete] at hh
  have hk : h ∉ keys w1.manager.contextMap := by
    rw [← find_eq_none_iff, hm]
    exact find_erase_self _ _
  refine ⟨⟨a, hctx2, hcell, ?_, ?_⟩, hm, (find_eq_none_iff _ _).2 hk, ?_, ?_⟩
  · rw [hh, getElem?_deleteAt_self, hcell]
    rfl
  · intro b hb
    rw [hh, getElem?_deleteAt_ne _ _ _ hb]
  · intro k hkh
    rw [hm]
    exact find_erase_ne _ _ _ hkh
  · intro post
    have hret : ¬ (w1.manager.nextId ≤ h ∧ h < maxId) := by
      intro hc
      rw [hn] at hc
      exact Nat.lt_irrefl _ (Nat.lt_of_lt_of_le hlt hc.1)
    have h2 := (run_retired maxId w1 hinv1 h hk hret post).2
    have hf2 : find (run maxId w1 post).2.manager.contextMap h = none :=
      (find_eq_none_iff _ _).2 h2
    simp [ContextDestroy, hf2]

/-! ## The claims at concrete inputs -/

theorem ContextDestroy_frame_witness :
    find ({ manager := { contextMap := [(2, { ctx := some 1, mutex := { shared := 0 } })],
                         nextId := 3 },
            heap := [{ obj := { ctxId := 1 }, deletes := 1 },
                     { obj := { ctxId := 2 }, deletes := 0 }],
            syslog := [] } : World).manager.contextMap 2
        = find (run 5 initial [Call.create, Call.create]).2.manager.contextMap 2 ∧
      ({ manager := { contextMap := [(2, { ctx := some 1, mutex := { shared := 0 } })],
                      nextId := 3 },
         heap := [{ obj := { ctxId := 1 }, deletes := 1 },
                  { obj := { ctxId := 2 }, deletes := 0 }],
         syslog := [] } : World).manager.nextId
        = (run 5 initial [Call.create, Call.create]).2.manager.nextId ∧
      (ContextGet 2
          { manager := { contextMap := [(2, { ctx := some 1, mutex := { shared := 0 } })],
                         nextId := 3 },
            heap := [{ obj := { ctxId := 1 }, deletes := 1 },
                     { obj := { ctxId := 2 }, deletes := 0 }],
            syslog := [] }).1
        = (ContextGet 2 (run 5 initial [Call.create, Call.create]).2).1 ∧
      (∀ k, k ∈ keys (run 5 initial [Call.create, Call.create]).2.manager.contextMap →
        k ∉ keys ({ manager := {
                      contextMap := [(2, { ctx := some 1, mutex := { shared := 0 } })],
                      nextId := 3 },
                    heap := [{ obj := { ctxId := 1 }, deletes := 1 },
                             { obj := { ctxId := 2 }, deletes := 0 }],
                    syslog := [] } : World).manager.contextMap →
        k = 1) :=
  ContextDestroy_frame (run 5 initial [Call.create, Call.create]).2 _ 1 2 (by decide)
    (by decide)

/-- C2 as stated fails for a handle that has not been issued yet: on the initial
registry `ContextDestroy(1)` returns (there is nothing to destroy), the next
`ContextCreate` issues the handle 1, and `ContextGet(1)` then returns the context at
address 0 with a lock on the entry of 1. -/
theorem get_after_destroy_found :
    ContextDestroy 1 (run 4294967295 initial []).2 = some initial ∧
      issuedHandles (run 4294967295 initial [Call.create]).1 = [1] ∧
      (ContextGet 1 (run 4294967295 initial [Call.create]).2).1
        = { ctx := some 0, lock := some 1 } := by
  decide

theorem get_after_destroy_not_found_witness :
    ContextDestroy 1 (run 5 initial [Call.create]).2
        = some { manager := { contextMap := [], nextId := 2 },
                 heap := [{ obj := { ctxId := 1 }, deletes := 1 }],
                 syslog := [] } ∧
      (ContextGet 1
          (run 5 { manager := { contextMap := [], nextId := 2 },
                   heap := [{ obj := { ctxId := 1 }, deletes := 1 }],
                   syslog := [] } [Call.create, Call.get 1]).2
        = ({ ctx := none, lock := none },
            (run 5 { manager := { contextMap := [], nextId := 2 },
                     heap := [{ obj := { ctxId := 1 }, deletes := 1 }],
                     syslog := [] } [Call.create, Call.get 1]).2) ∧
        1 ∉ issuedHandles
          (run 5 { manager := { contextMap := [], nextId := 2 },
                   heap := [{ obj := { ctxId := 1 }, deletes := 1 }],
                   syslog := [] } [Call.create, Call.get 1]).1 ∧
        1 ∉ keys
          (run 5 { manager := { contextMap := [], nextId := 2 },
                   heap := [{ obj := { ctxId := 1 }, deletes := 1 }],
                   syslog := [] } [Call.create, Call.get 1]).2.manager.contextMap) :=
  ⟨by decide,
    get_after_destroy_not_found 5 [Call.create] 1 _ [Call.create, Call.get 1]
      (by decide) (by decide)⟩

theorem kth_create_returns_k_witness :
    (createResults
        (run 5 initial [Call.create, Call.get 1, Call.drop 1, Call.destroy 1, Call.create]).1)[2 - 1]?
      = some 2 :=
  kth_create_returns_k 5 [Call.create, Call.get 1, Call.drop 1, Call.destroy 1, Call.create] 2
    (by decide) (by decide) (by decide)

theorem no_double_free_witness :
    (∃ a, ({ ctx := some 0, mutex := { shared := 0 } } : ContextState).ctx = some a ∧
        (run 5 initial [Call.create]).2.heap[a]?
          = some { obj := { ctxId := 1 }, deletes := 0 } ∧
        ({ manager := { contextMap := [], nextId := 2 },
           heap := [{ obj := { ctxId := 1 }, deletes := 1 }],
           syslog := [] } : World).heap[a]?
          = some { obj := { ctxId := 1 }, deletes := 1 } ∧
        ∀ b, b ≠ a →
          ({ manager := { contextMap := [], nextId := 2 },
             heap := [{ obj := { ctxId := 1 }, deletes := 1 }],
             syslog := [] } : World).heap[b]?
            = (run 5 initial [Call.create]).2.heap[b]?) ∧
      ({ manager := { contextMap := [], nextId := 2 },
         heap := [{ obj := { ctxId := 1 }, deletes := 1 }],
         syslog := [] } : World).manager.contextMap
        = erase (run 5 initial [Call.create]).2.manager.contextMap 1 ∧
      find ({ manager := { contextMap := [], nextId := 2 },
              heap := [{ obj := { ctxId := 1 }, deletes := 1 }],
              syslog := [] } : World).manager.contextMap 1 = none ∧
      (∀ k, k ≠ 1 →
        find ({ manager := { contextMap := [], nextId := 2 },
                heap := [{ obj := { ctxId := 1 }, deletes := 1 }],
                syslog := [] } : World).manager.contextMap k
          = find (run 5 initial [Call.create]).2.manager.contextMap k) ∧
      ∀ post,
        ContextDestroy 1
            (run 5 { manager := { contextMap := [], nextId := 2 },
                     heap := [{ obj := { ctxId := 1 }, deletes := 1 }],
                     syslog := [] } post).2
          = some (run 5 { manager := { contextMap := [], nextId := 2 },
                          heap := [{ obj := { ctxId := 1 }, deletes := 1 }],
                          syslog := [] } post).2 :=
  (no_double_free 5 [Call.create]).2 1 { ctx := some 0, mutex := { shared := 0 } } _
    (by decide) (by decide)

/-! ## Threads: locks and tokens -/

theorem lt_length_of_getElem? {α : Type} (l : List α) (t : Nat) (x : α)
    (h : l[t]? = some x) : t < l.length := by
  by_contra hn
  rw [List.getElem?_eq_none (Nat.le_of_not_lt hn)] at h
  cases h

theorem critical_of_deleting (pc : Pc) (h : ABI45_0_0EXGLContextId) (hd : pc.deleting h) :
    pc.critical = true := by
  rcases hd with hd | hd | hd <;> (subst hd; rfl)

theorem Owner_set_same (pcs : List Pc) (m : Option Nat) (t : Nat) (pc pc1 : Pc)
    (hO : Owner pcs m) (hpc : pcs[t]? = some pc) (hc : pc1.critical = pc.critical) :
    Owner (pcs.set t pc1) m := by
  intro t1 p hp
  by_cases ht : t = t1
  · subst ht
    rw [List.getElem?_set_self (lt_length_of_getElem? _ _ _ hpc)] at hp
    cases hp
    rw [hc]
    exact hO t pc hpc
  · rw [List.getElem?_set_ne ht] at hp
    exact hO t1 p hp

theorem Owner_set_acquire (pcs : List Pc) (t : Nat) (pc pc1 : Pc)
    (hO : Owner pcs none) (hpc : pcs[t]? = some pc) (hc : pc1.critical = true) :
    Owner (pcs.set t pc1) (some t) := by
  intro t1 p hp
  by_cases ht : t = t1
  · subst ht
    rw [List.getElem?_set_self (lt_length_of_getElem? _ _ _ hpc)] at hp
    cases hp
    simp [hc]
  · rw [List.getElem?_set_ne ht] at hp
    have h1 := hO t1 p hp
    constructor
    · intro h2
      exact absurd (h1.1 h2) (by simp)
    · intro h2
      exact absurd (Option.some.inj h2) ht

theorem Owner_set_release (pcs : List Pc) (m : Option Nat) (t : Nat) (pc pc1 : Pc)
    (hO : Owner pcs m) (hpc : pcs[t]? = some pc) (hc : pc.critical = true)
    (hc1 : pc1.critical = false) : Owner (pcs.set t pc1) none := by
  have hm : m = some t := (hO t pc hpc).1 hc
  intro t1 p hp
  by_cases ht : t = t1
  · subst ht
    rw [List.getElem?_set_self (lt_length_of_getElem? _ _ _ hpc)] at hp
    cases hp
    simp [hc1]
  · rw [List.getElem?_set_ne ht] at hp
    have h1 := hO t1 p hp
    constructor
    · intro h2
      have h3 := h1.1 h2
      rw [hm] at h3
      exact absurd (Option.some.inj h3) ht
    · intro h2
      cases h2

theorem Quiet_set_mono (pcs : List Pc) (m m1 : List (ABI45_0_0EXGLContextId × ContextState))
    (t : Nat) (pc pc1 : Pc) (hQ : Quiet pcs m) (hpc : pcs[t]? = some pc)
    (hmono : ∀ id, sharedOf m1 id ≤ sharedOf m id)
    (hself : ∀ id, pc1.deleting id → sharedOf m1 id = 0) :
    Quiet (pcs.set t pc1) m1 := by
  intro t1 p id hp hd
  by_cases ht : t = t1
  · subst ht
    rw [List.getElem?_set_self (lt_length_of_getElem? _ _ _ hpc)] at hp
    cases hp
    exact hself id hd
  · rw [List.getElem?_set_ne ht] at hp
    have h1 := hQ t1 p id hp hd
    exact Nat.le_zero.1 (h1 ▸ hmono id)

theorem Quiet_set_critical (pcs : List Pc) (m1 : List (ABI45_0_0EXGLContextId × ContextState))
    (o : Option Nat) (t : Nat) (pc pc1 : Pc) (hO : Owner pcs o) (hpc : pcs[t]? = some pc)
    (hc : pc.critical = true) (hself : ∀ id, ¬ pc1.deleting id) :
    Quiet (pcs.set t pc1) m1 := by
  have hm : o = some t := (hO t pc hpc).1 hc
  intro t1 p id hp hd
  by_cases ht : t = t1
  · subst ht
    rw [List.getElem?_set_self (lt_length_of_getElem? _ _ _ hpc)] at hp
    cases hp
    exact absurd hd (hself id)
  · rw [List.getElem?_set_ne ht] at hp
    have h3 := (hO t1 p hp).1 (critical_of_deleting p id hd)
    rw [hm] at h3
    exact absurd (Option.some.inj h3) ht

theorem heldOn_append (l : List (Nat × ABI45_0_0EXGLContextId)) (t : Nat)
    (id k : ABI45_0_0EXGLContextId) :
    heldOn (l ++ [(t, id)]) k = heldOn l k + (if id = k then 1 else 0) := by
  induction l with
  | nil => simp [heldOn]
  | cons e rest ih =>
    obtain ⟨t1, k1⟩ := e
    show (if k1 = k then 1 else 0) + heldOn (rest ++ [(t, id)]) k
      = (if k1 = k then 1 else 0) + heldOn rest k + (if id = k then 1 else 0)
    rw [ih, Nat.add_assoc]

theorem heldOn_erase (l : List (Nat × ABI45_0_0EXGLContextId)) (t : Nat)
    (id k : ABI45_0_0EXGLContextId) (hmem : (t, id) ∈ l) :
    heldOn (l.erase (t, id)) k + (if id = k then 1 else 0) = heldOn l k := by
  induction l with
  | nil => cases hmem
  | cons e rest ih =>
    obtain ⟨t1, k1⟩ := e
    by_cases he : (t1, k1) = (t, id)
    · rw [he, List.erase_cons_head]
      simp only [heldOn]
      exact Nat.add_comm _ _
    · have hmem2 : (t, id) ∈ rest := by
        rcases List.mem_cons.1 hmem with h | h
        · exact absurd h.symm he
        · exact h
      rw [List.erase_cons_tail (by simpa using he)]
      simp only [heldOn]
      rw [Nat.add_assoc, ih hmem2]

theorem heldOn_eq_zero (l : List (Nat × ABI45_0_0EXGLContextId)) (id : ABI45_0_0EXGLContextId)
    (h : heldOn l id = 0) (t : Nat) : (t, id) ∉ l := by
  intro hmem
  have h1 := heldOn_erase l t id id hmem
  rw [h] at h1
  simp at h1

theorem sharedOf_adjust_mutex (g : SharedMutex → SharedMutex)
    (m : List (ABI45_0_0EXGLContextId × ContextState)) (id k : ABI45_0_0EXGLContextId) :
    sharedOf (adjust (fun s => { s with mutex := g s.mutex }) m id) k
      = if k = id then
          (match find m id with
            | none => 0
            | some st => (g st.mutex).shared)
        else sharedOf m k := by
  by_cases hk : k = id
  · subst hk
    simp only [sharedOf, find_adjust_self, if_true]
    cases find m k with
    | none => rfl
    | some st => rfl
  · simp only [sharedOf, find_adjust_ne _ _ _ _ hk, hk, if_false]

theorem sharedOf_adjust_ctx (a : Option Nat)
    (m : List (ABI45_0_0EXGLContextId × ContextState)) (id k : ABI45_0_0EXGLContextId) :
    sharedOf (adjust (fun s => { s with ctx := a }) m id) k = sharedOf m k := by
  by_cases hk : k = id
  · subst hk
    simp only [sharedOf, find_adjust_self]
    cases find m k with
    | none => rfl
    | some st => rfl
  · simp only [sharedOf, find_adjust_ne _ _ _ _ hk]

theorem sharedOf_subscript (m : List (ABI45_0_0EXGLContextId × ContextState))
    (id k : ABI45_0_0EXGLContextId) : sharedOf (subscript m id) k = sharedOf m k := by
  unfold subscript
  cases hf : find m id with
  | some st => rfl
  | none =>
    by_cases hk : id = k
    · subst hk
      simp [sharedOf, find, hf]
    · simp [sharedOf, find, hk]

theorem sharedOf_erase (m : List (ABI45_0_0EXGLContextId × ContextState))
    (id k : ABI45_0_0EXGLContextId) :
    sharedOf (erase m id) k = if k = id then 0 else sharedOf m k := by
  by_cases hk : k = id
  · subst hk
    simp [sharedOf, find_erase_self]
  · simp [sharedOf, find_erase_ne _ _ _ hk, hk]

theorem Quiet_mono (pcs : List Pc) (m m1 : List (ABI45_0_0EXGLContextId × ContextState))
    (hQ : Quiet pcs m) (hmono : ∀ id, sharedOf m1 id ≤ sharedOf m id) : Quiet pcs m1 := by
  intro t p id hp hd
  have h1 := hQ t p id hp hd
  exact Nat.le_zero.1 (h1 ▸ hmono id)

theorem sharedOf_ContextGet (id k : ABI45_0_0EXGLContextId) (w : World)
    (h : ¬ (ContextGet id w).1.lock = none) :
    sharedOf (ContextGet id w).2.manager.contextMap k
      = sharedOf w.manager.contextMap k + (if id = k then 1 else 0) := by
  unfold ContextGet at h ⊢
  cases hf : find w.manager.contextMap id with
  | none => simp [hf] at h
  | some st =>
    by_cases hc : st.ctx = none
    · simp [hf, hc] at h
    · simp only [hc, if_false]
      have h1 := sharedOf_adjust_mutex (fun m => { shared := m.shared + 1 })
        w.manager.contextMap id k
      rw [h1]
      by_cases hk : k = id
      · subst hk
        simp [sharedOf, hf]
      · have hk2 : ¬ id = k := fun e => hk e.symm
        simp [hk, hk2]

theorem sharedOf_unlockShared (id k : ABI45_0_0EXGLContextId) (w : World) :
    sharedOf (unlockShared (some id) w).manager.contextMap k
      = if k = id then sharedOf w.manager.contextMap id - 1
        else sharedOf w.manager.contextMap k := by
  have h1 := sharedOf_adjust_mutex (fun m => { shared := m.shared - 1 })
    w.manager.contextMap id k
  simp only [unlockShared]
  rw [h1]
  by_cases hk : k = id
  · subst hk
    simp only [if_true, sharedOf]
    cases find w.manager.contextMap k with
    | none => rfl
    | some st => rfl
  · simp [hk]

theorem Good_intro (s : Sys) (h1 : Owner s.pcs s.contextLookupMutex)
    (h2 : ∀ id, heldOn s.tokens id ≤ sharedOf s.world.manager.contextMap id)
    (h3 : Quiet s.pcs s.world.manager.contextMap) : Good s :=
  ⟨h1, h2, h3⟩

/-- Every statement of every thread preserves the invariant `Good`. -/
theorem Good_tstep (maxId : Nat) (s s1 : Sys) (t : Nat) (c : Call) (hg : Good s)
    (hs : tstep maxId s t c = some s1) : Good s1 := by
  obtain ⟨hO, hT, hQ⟩ := hg
  unfold tstep at hs
  cases hpc : s.pcs[t]? with
  | none =>
    rw [hpc] at hs
    cases hs
  | some pc =>
    rw [hpc] at hs
    cases pc with
    | idle =>
      cases c with
      | create =>
        simp only [Option.some.injEq] at hs
        subst hs
        exact Good_intro _ (Owner_set_same _ _ t _ _ hO hpc rfl) hT
          (Quiet_set_mono _ _ _ t _ _ hQ hpc (fun _ => Nat.le_refl _)
            (fun id hd => by rcases hd with h | h | h <;> cases h))
      | get id =>
        simp only [Option.some.injEq] at hs
        subst hs
        exact Good_intro _ (Owner_set_same _ _ t _ _ hO hpc rfl) hT
          (Quiet_set_mono _ _ _ t _ _ hQ hpc (fun _ => Nat.le_refl _)
            (fun id hd => by rcases hd with h | h | h <;> cases h))
      | destroy id =>
        simp only [Option.some.injEq] at hs
        subst hs
        exact Good_intro _ (Owner_set_same _ _ t _ _ hO hpc rfl) hT
          (Quiet_set_mono _ _ _ t _ _ hQ hpc (fun _ => Nat.le_refl _)
            (fun id hd => by rcases hd with h | h | h <;> cases h))
      | drop id =>
        by_cases hmem : (t, id) ∈ s.tokens
        · simp only [hmem, if_true, Option.some.injEq] at hs
          subst hs
          have hsh := sharedOf_unlockShared id
          refine Good_intro _ hO ?_ (Quiet_mono _ _ _ hQ ?_)
          · intro k
            have h1 := heldOn_erase s.tokens t id k hmem
            have h2 := hT k
            show heldOn (s.tokens.erase (t, id)) k
              ≤ sharedOf (unlockShared (some id) s.world).manager.contextMap k
            rw [hsh k s.world]
            by_cases hk : k = id
            · subst hk
              simp only [if_true] at h1 ⊢
              omega
            · have hk2 : ¬ id = k := fun e => hk e.symm
              simp only [hk, hk2, if_false] at h1 ⊢
              omega
          · intro k
            show sharedOf (unlockShared (some id) s.world).manager.contextMap k
              ≤ sharedOf s.world.manager.contextMap k
            rw [hsh k s.world]
            by_cases hk : k = id
            · subst hk
              simp only [if_true]
              omega
            · simp only [hk, if_false]
              exact Nat.le_refl _
        · simp [hmem] at hs
    | getLock id =>
      by_cases hm : s.contextLookupMutex = none
      · simp only [hm, if_true, Option.some.injEq] at hs
        subst hs
        rw [hm] at hO
        exact Good_intro _ (Owner_set_acquire _ t _ _ hO hpc rfl) hT
          (Quiet_set_mono _ _ _ t _ _ hQ hpc (fun _ => Nat.le_refl _)
            (fun id hd => by rcases hd with h | h | h <;> cases h))
      · simp [hm] at hs
    | getFind id =>
      by_cases hl : (ContextGet id s.world).1.lock = none
      · simp only [hl, if_true, Option.some.injEq] at hs
        subst hs
        exact Good_intro _ (Owner_set_release _ _ t _ _ hO hpc rfl rfl) hT
          (Quiet_set_mono _ _ _ t _ _ hQ hpc (fun _ => Nat.le_refl _)
            (fun id hd => by rcases hd with h | h | h <;> cases h))
      · by_cases hx : id ∈ s.exclusive
        · simp [hl, hx] at hs
        · simp only [hl, hx, if_false, Option.some.injEq] at hs
          subst hs
          refine Good_intro _ (Owner_set_release _ _ t _ _ hO hpc rfl rfl) ?_
            (Quiet_set_critical _ _ _ t _ _ hO hpc rfl
              (fun id hd => by rcases hd with h | h | h <;> cases h))
          intro k
          show heldOn (s.tokens ++ [(t, id)]) k
            ≤ sharedOf (ContextGet id s.world).2.manager.contextMap k
          rw [heldOn_append, sharedOf_ContextGet id k s.world hl]
          exact Nat.add_le_add_right (hT k) _
    | createCheck =>
      by_cases hge : s.world.manager.nextId ≥ maxId
      · simp only [hge, if_true, Option.some.injEq] at hs
        subst hs
        exact Good_intro _ (Owner_set_same _ _ t _ _ hO hpc rfl) hT
          (Quiet_set_mono _ _ _ t _ _ hQ hpc (fun _ => Nat.le_refl _)
            (fun id hd => by rcases hd with h | h | h <;> cases h))
      · simp only [hge, if_false, Option.some.injEq] at hs
        subst hs
        exact Good_intro _ (Owner_set_same _ _ t _ _ hO hpc rfl) hT
          (Quiet_set_mono _ _ _ t _ _ hQ hpc (fun _ => Nat.le_refl _)
            (fun id hd => by rcases hd with h | h | h <;> cases h))
    | createLock =>
      by_cases hm : s.contextLookupMutex = none
      · simp only [hm, if_true, Option.some.injEq] at hs
        subst hs
        rw [hm] at hO
        exact Good_intro _ (Owner_set_acquire _ t _ _ hO hpc rfl) hT
          (Quiet_set_mono _ _ _ t _ _ hQ hpc (fun _ => Nat.le_refl _)
            (fun id hd => by rcases hd with h | h | h <;> cases h))
      · simp [hm] at hs
    | createReserve =>
      simp only [Option.some.injEq] at hs
      subst hs
      exact Good_intro _ (Owner_set_same _ _ t _ _ hO hpc rfl) hT
        (Quiet_set_mono _ _ _ t _ _ hQ hpc (fun _ => Nat.le_refl _)
          (fun id hd => by rcases hd with h | h | h <;> cases h))
    | createFind ctxId =>
      cases hf : find s.world.manager.contextMap ctxId with
      | some st =>
        simp only [hf, Option.some.injEq] at hs
        subst hs
        exact Good_intro _ (Owner_set_release _ _ t _ _ hO hpc rfl rfl) hT
          (Quiet_set_mono _ _ _ t _ _ hQ hpc (fun _ => Nat.le_refl _)
            (fun id hd => by rcases hd with h | h | h <;> cases h))
      | none =>
        simp only [hf, Option.some.injEq] at hs
        subst hs
        exact Good_intro _ (Owner_set_same _ _ t _ _ hO hpc rfl) hT
          (Quiet_set_mono _ _ _ t _ _ hQ hpc (fun _ => Nat.le_refl _)
            (fun id hd => by rcases hd with h | h | h <;> cases h))
    | createInsert ctxId =>
      simp only [Option.some.injEq] at hs
      subst hs
      have hsame : ∀ k, sharedOf (adjust
            (fun st => { st with ctx := some (heapNew s.world.heap ctxId).1 })
            (subscript s.world.manager.contextMap ctxId) ctxId) k
          = sharedOf s.world.manager.contextMap k := by
        intro k
        rw [sharedOf_adjust_ctx, sharedOf_subscript]
      refine Good_intro _ (Owner_set_release _ _ t _ _ hO hpc rfl rfl) ?_
        (Quiet_set_mono _ _ _ t _ _ hQ hpc (fun k => Nat.le_of_eq (hsame k))
          (fun id hd => by rcases hd with h | h | h <;> cases h))
      intro k
      exact (hsame k).symm ▸ hT k
    | destroyLock id =>
      by_cases hm : s.contextLookupMutex = none
      · simp only [hm, if_true, Option.some.injEq] at hs
        subst hs
        rw [hm] at hO
        exact Good_intro _ (Owner_set_acquire _ t _ _ hO hpc rfl) hT
          (Quiet_set_mono _ _ _ t _ _ hQ hpc (fun _ => Nat.le_refl _)
            (fun id hd => by rcases hd with h | h | h <;> cases h))
      · simp [hm] at hs
    | destroyFind id =>
      cases hf : find s.world.manager.contextMap id with
      | none =>
        simp only [hf, Option.some.injEq] at hs
        subst hs
        exact Good_intro _ (Owner_set_release _ _ t _ _ hO hpc rfl rfl) hT
          (Quiet_set_mono _ _ _ t _ _ hQ hpc (fun _ => Nat.le_refl _)
            (fun id hd => by rcases hd with h | h | h <;> cases h))
      | some st =>
        simp only [hf, Option.some.injEq] at hs
        subst hs
        exact Good_intro _ (Owner_set_same _ _ t _ _ hO hpc rfl) hT
          (Quiet_set_mono _ _ _ t _ _ hQ hpc (fun _ => Nat.le_refl _)
            (fun id hd => by rcases hd with h | h | h <;> cases h))
    | destroyUnique id =>
      by_cases hgd : sharedOf s.world.manager.contextMap id = 0 ∧ id ∉ s.exclusive
      · dsimp only at hs
        rw [if_pos hgd] at hs
        simp only [Option.some.injEq] at hs
        subst hs
        exact Good_intro _ (Owner_set_same _ _ t _ _ hO hpc rfl) hT
          (Quiet_set_mono _ _ _ t _ _ hQ hpc (fun _ => Nat.le_refl _)
            (fun k hd => by
              rcases hd with h | h | h <;> cases h
              exact hgd.1))
      · dsimp only at hs
        rw [if_neg hgd] at hs
        cases hs
    | destroyDelete id =>
      simp only [Option.some.injEq] at hs
      subst hs
      exact Good_intro _ (Owner_set_same _ _ t _ _ hO hpc rfl) hT
        (Quiet_set_mono _ _ _ t _ _ hQ hpc (fun _ => Nat.le_refl _)
          (fun k hd => by
            rcases hd with h | h | h <;> cases h
            exact hQ t _ id hpc (Or.inl rfl)))
    | destroyUnlock id =>
      simp only [Option.some.injEq] at hs
      subst hs
      exact Good_intro _ (Owner_set_same _ _ t _ _ hO hpc rfl) hT
        (Quiet_set_mono _ _ _ t _ _ hQ hpc (fun _ => Nat.le_refl _)
          (fun k hd => by
            rcases hd with h | h | h <;> cases h
            exact hQ t _ id hpc (Or.inr (Or.inl rfl))))
    | destroyErase id =>
      simp only [Option.some.injEq] at hs
      subst hs
      have hz : sharedOf s.world.manager.contextMap id = 0 :=
        hQ t _ id hpc (Or.inr (Or.inr rfl))
      refine Good_intro _ (Owner_set_release _ _ t _ _ hO hpc rfl rfl) ?_
        (Quiet_set_mono _ _ _ t _ _ hQ hpc ?_
          (fun id hd => by rcases hd with h | h | h <;> cases h))
      · intro k
        show heldOn s.tokens k ≤ sharedOf (erase s.world.manager.contextMap id) k
        rw [sharedOf_erase]
        by_cases hk : k = id
        · subst hk
          simp only [if_true]
          exact hz ▸ hT k
        · simp only [hk, if_false]
          exact hT k
      · intro k
        show sharedOf (erase s.world.manager.contextMap id) k
          ≤ sharedOf s.world.manager.contextMap k
        rw [sharedOf_erase]
        by_cases hk : k = id
        · simp [hk]
        · simp [hk]

theorem Good_start (n : Nat) : Good (start n) := by
  refine Good_intro _ ?_ ?_ ?_
  · intro t pc hpc
    simp only [start, List.getElem?_replicate] at hpc
    by_cases ht : t < n
    · simp only [ht, if_true, Option.some.injEq] at hpc
      subst hpc
      simp [start, Pc.critical]
    · simp [ht] at hpc
  · intro id
    simp [start, heldOn]
  · intro t pc id hpc hd
    simp only [start, List.getElem?_replicate] at hpc
    by_cases ht : t < n
    · simp only [ht, if_true, Option.some.injEq] at hpc
      subst hpc
      rcases hd with h | h | h <;> cases h
    · simp [ht] at hpc

theorem Good_exec (maxId : Nat) (sched : List (Nat × Call)) (s : Sys) (hg : Good s) :
    Good (exec maxId s sched) := by
  induction sched generalizing s with
  | nil => exact hg
  | cons e rest ih =>
    obtain ⟨t, c⟩ := e
    cases hs : tstep maxId s t c with
    | none =>
      simp only [exec, hs]
      exact ih s hg
    | some s1 =>
      simp only [exec, hs]
      exact ih s1 (Good_tstep maxId s s1 t c hg hs)

/-- What one statement does to the free store and to the record of returns: the
free store changes only at line 42 (one object appended) and at line 53 (the `ctx` of
the entry deleted), and `ContextDestroy(id)` returns only from line 50 with no entry
found or from line 57. -/
theorem tstep_effect (maxId : Nat) (s s1 : Sys) (t : Nat) (c : Call)
    (hs : tstep maxId s t c = some s1) :
    ∃ pc, s.pcs[t]? = some pc ∧
      (s1.world.heap = s.world.heap ∨
        (∃ id, pc = Pc.createInsert id ∧
          s1.world.heap = s.world.heap ++ [{ obj := { ctxId := id }, deletes := 0 }]) ∨
        (∃ id, pc = Pc.destroyDelete id ∧
          s1.world.heap = heapDelete s.world.heap
            ((find s.world.manager.contextMap id).bind (fun st => st.ctx)))) ∧
      (s1.rets = s.rets ∨
        (∃ r, s1.rets = s.rets ++ [(t, r)] ∧ r ≠ Ret.destroyed) ∨
        (s1.rets = s.rets ++ [(t, Ret.destroyed)] ∧
          ∃ id, pc = Pc.destroyErase id ∨
            (pc = Pc.destroyFind id ∧ find s.world.manager.contextMap id = none))) := by
  unfold tstep at hs
  cases hpc : s.pcs[t]? with
  | none =>
    rw [hpc] at hs
    cases hs
  | some pc =>
    rw [hpc] at hs
    refine ⟨pc, rfl, ?_⟩
    cases pc with
    | idle =>
      cases c with
      | create =>
        simp only [Option.some.injEq] at hs
        subst hs
        exact ⟨Or.inl rfl, Or.inl rfl⟩
      | get id =>
        simp only [Option.some.injEq] at hs
        subst hs
        exact ⟨Or.inl rfl, Or.inl rfl⟩
      | destroy id =>
        simp only [Option.some.injEq] at hs
        subst hs
        exact ⟨Or.inl rfl, Or.inl rfl⟩
      | drop id =>
        by_cases hmem : (t, id) ∈ s.tokens
        · simp only [hmem, if_true, Option.some.injEq] at hs
          subst hs
          exact ⟨Or.inl rfl, Or.inr (Or.inl ⟨Ret.dropped, rfl, fun h => by cases h⟩)⟩
        · simp [hmem] at hs
    | getLock id =>
      by_cases hm : s.contextLookupMutex = none
      · simp only [hm, if_true, Option.some.injEq] at hs
        subst hs
        exact ⟨Or.inl rfl, Or.inl rfl⟩
      · simp [hm] at hs
    | getFind id =>
      by_cases hl : (ContextGet id s.world).1.lock = none
      · simp only [hl, if_true, Option.some.injEq] at hs
        subst hs
        exact ⟨Or.inl rfl, Or.inr (Or.inl ⟨_, rfl, fun h => by cases h⟩)⟩
      · by_cases hx : id ∈ s.exclusive
        · simp [hl, hx] at hs
        · simp only [hl, hx, if_false, Option.some.injEq] at hs
          subst hs
          refine ⟨Or.inl ?_, Or.inr (Or.inl ⟨_, rfl, fun h => by cases h⟩)⟩
          show (ContextGet id s.world).2.heap = s.world.heap
          unfold ContextGet
          cases find s.world.manager.contextMap id with
          | none => rfl
          | some st =>
            by_cases hc : st.ctx = none
            · simp [hc]
            · simp [hc]
    | createCheck =>
      by_cases hge : s.world.manager.nextId ≥ maxId
      · simp only [hge, if_true, Option.some.injEq] at hs
        subst hs
        exact ⟨Or.inl rfl, Or.inr (Or.inl ⟨_, rfl, fun h => by cases h⟩)⟩
      · simp only [hge, if_false, Option.some.injEq] at hs
        subst hs
        exact ⟨Or.inl rfl, Or.inl rfl⟩
    | createLock =>
      by_cases hm : s.contextLookupMutex = none
      · simp only [hm, if_true, Option.some.injEq] at hs
        subst hs
        exact ⟨Or.inl rfl, Or.inl rfl⟩
      · simp [hm] at hs
    | createReserve =>
      simp only [Option.some.injEq] at hs
      subst hs
      exact ⟨Or.inl rfl, Or.inl rfl⟩
    | createFind ctxId =>
      cases hf : find s.world.manager.contextMap ctxId with
      | some st =>
        simp only [hf, Option.some.injEq] at hs
        subst hs
        exact ⟨Or.inl rfl, Or.inr (Or.inl ⟨_, rfl, fun h => by cases h⟩)⟩
      | none =>
        simp only [hf, Option.some.injEq] at hs
        subst hs
        exact ⟨Or.inl rfl, Or.inl rfl⟩
    | createInsert ctxId =>
      simp only [Option.some.injEq] at hs
      subst hs
      exact ⟨Or.inr (Or.inl ⟨ctxId, rfl, rfl⟩),
        Or.inr (Or.inl ⟨_, rfl, fun h => by cases h⟩)⟩
    | destroyLock id =>
      by_cases hm : s.contextLookupMutex = none
      · simp only [hm, if_true, Option.some.injEq] at hs
        subst hs
        exact ⟨Or.inl rfl, Or.inl rfl⟩
      · simp [hm] at hs
    | destroyFind id =>
      cases hf : find s.world.manager.contextMap id with
      | none =>
        simp only [hf, Option.some.injEq] at hs
        subst hs
        exact ⟨Or.inl rfl, Or.inr (Or.inr ⟨rfl, id, Or.inr ⟨rfl, hf⟩⟩)⟩
      | some st =>
        simp only [hf, Option.some.injEq] at hs
        subst hs
        exact ⟨Or.inl rfl, Or.inl rfl⟩
    | destroyUnique id =>
      by_cases hgd : sharedOf s.world.manager.contextMap id = 0 ∧ id ∉ s.exclusive
      · dsimp only at hs
        rw [if_pos hgd] at hs
        simp only [Option.some.injEq] at hs
        subst hs
        exact ⟨Or.inl rfl, Or.inl rfl⟩
      · dsimp only at hs
        rw [if_neg hgd] at hs
        cases hs
    | destroyDelete id =>
      simp only [Option.some.injEq] at hs
      subst hs
      exact ⟨Or.inr (Or.inr ⟨id, rfl, rfl⟩), Or.inl rfl⟩
    | destroyUnlock id =>
      simp only [Option.some.injEq] at hs
      subst hs
      exact ⟨Or.inl rfl, Or.inl rfl⟩
    | destroyErase id =>
      simp only [Option.some.injEq] at hs
      subst hs
      exact ⟨Or.inl rfl, Or.inr (Or.inr ⟨rfl, id, Or.inl rfl⟩)⟩

/-- In a state satisfying `Good` no token locks an entry without shared owners. -/
theorem no_token_of_sharedOf_zero (s : Sys) (hg : Good s) (h : ABI45_0_0EXGLContextId)
    (hz : sharedOf s.world.manager.contextMap h = 0) (t1 : Nat) : (t1, h) ∉ s.tokens :=
  heldOn_eq_zero s.tokens h (Nat.le_zero.1 (hz ▸ hg.2.1 h)) t1

/-! ## The claim about threads -/

/-- C3: for any number of threads and any schedule from the initial process, in the
state `s` reached: (1) a statement that changes an object of the free store is the
`delete` of a `ContextDestroy(h)` whose entry points to that object, and at that
moment the mutex of the entry of `h` has no shared owner and no thread holds a token
on `h`; (2) a statement that returns from `ContextDestroy` returns from a
`ContextDestroy(h)` at a moment when no thread holds a token on `h`; (3) while a token
on `h` is held, a thread waiting for the `std::unique_lock` of `ContextDestroy(h)`
cannot move; (4) from the `delete` of `ContextDestroy(h)` to its return no thread
holds a token on `h`. -/
theorem destroy_waits_for_tokens (maxId n : Nat) (sched : List (Nat × Call)) :
    (∀ t c s1 a, tstep maxId (exec maxId (start n) sched) t c = some s1 →
        a < (exec maxId (start n) sched).world.heap.length →
        s1.world.heap[a]? ≠ (exec maxId (start n) sched).world.heap[a]? →
        ∃ h, (exec maxId (start n) sched).pcs[t]? = some (Pc.destroyDelete h) ∧
          (find (exec maxId (start n) sched).world.manager.contextMap h).bind
            (fun st => st.ctx) = some a ∧
          sharedOf (exec maxId (start n) sched).world.manager.contextMap h = 0 ∧
          ∀ t1, (t1, h) ∉ (exec maxId (start n) sched).tokens) ∧
      (∀ t c s1, tstep maxId (exec maxId (start n) sched) t c = some s1 →
        s1.rets = (exec maxId (start n) sched).rets ++ [(t, Ret.destroyed)] →
        ∃ h, ((exec maxId (start n) sched).pcs[t]? = some (Pc.destroyErase h) ∨
            ((exec maxId (start n) sched).pcs[t]? = some (Pc.destroyFind h) ∧
              find (exec maxId (start n) sched).world.manager.contextMap h = none)) ∧
          ∀ t1, (t1, h) ∉ (exec maxId (start n) sched).tokens) ∧
      (∀ t t1 c h, (exec maxId (start n) sched).pcs[t]? = some (Pc.destroyUnique h) →
        (t1, h) ∈ (exec maxId (start n) sched).tokens →
        tstep maxId (exec maxId (start n) sched) t c = none) ∧
      (∀ (t : Nat) (pc : Pc) (h : ABI45_0_0EXGLContextId),
        (exec maxId (start n) sched).pcs[t]? = some pc → pc.deleting h →
        ∀ t1, (t1, h) ∉ (exec maxId (start n) sched).tokens) := by
  have hg : Good (exec maxId (start n) sched) := Good_exec maxId sched (start n) (Good_start n)
  generalize exec maxId (start n) sched = s at hg
  refine ⟨?_, ?_, ?_, ?_⟩
  · intro t c s1 a hs ha hne
    obtain ⟨pc, hpc, hheap, -⟩ := tstep_effect maxId s s1 t c hs
    rcases hheap with hh | ⟨id, -, hh⟩ | ⟨id, hid, hh⟩
    · rw [hh] at hne
      exact absurd rfl hne
    · rw [hh, List.getElem?_append_left ha] at hne
      exact absurd rfl hne
    · subst hid
      have hz : sharedOf s.world.manager.contextMap id = 0 := hg.2.2 t _ id hpc (Or.inl rfl)
      refine ⟨id, hpc, ?_, hz, no_token_of_sharedOf_zero s hg id hz⟩
      cases hp : (find s.world.manager.contextMap id).bind (fun st => st.ctx) with
      | none =>
        rw [hh, hp] at hne
        exact absurd rfl hne
      | some b =>
        rw [hh, hp] at hne
        by_cases hab : a = b
        · rw [hab]
        · simp only [heapDelete] at hne
          rw [getElem?_deleteAt_ne _ _ _ hab] at hne
          exact absurd rfl hne
  · intro t c s1 hs hr
    obtain ⟨pc, hpc, -, hrets⟩ := tstep_effect maxId s s1 t c hs
    rcases hrets with h1 | ⟨r, h1, h2⟩ | ⟨-, id, h3⟩
    · rw [h1] at hr
      simp at hr
    · rw [h1] at hr
      simp only [List.append_cancel_left_eq, List.cons.injEq, Prod.mk.injEq, true_and,
        and_true] at hr
      exact absurd hr h2
    · rcases h3 with h3 | ⟨h3, hf⟩
      · subst h3
        have hz : sharedOf s.world.manager.contextMap id = 0 :=
          hg.2.2 t _ id hpc (Or.inr (Or.inr rfl))
        exact ⟨id, Or.inl hpc, no_token_of_sharedOf_zero s hg id hz⟩
      · subst h3
        have hz : sharedOf s.world.manager.contextMap id = 0 := by
          simp [sharedOf, hf]
        exact ⟨id, Or.inr ⟨hpc, hf⟩, no_token_of_sharedOf_zero s hg id hz⟩
  · intro t t1 c h hpc hmem
    have hpos : sharedOf s.world.manager.contextMap h ≠ 0 := by
      intro hz
      exact no_token_of_sharedOf_zero s hg h hz t1 hmem
    have hgd : ¬ (sharedOf s.world.manager.contextMap h = 0 ∧ h ∉ s.exclusive) :=
      fun hc => hpos hc.1
    unfold tstep
    rw [hpc]
    dsimp only
    rw [if_neg hgd]
  · intro t pc h hpc hd t1
    exact no_token_of_sharedOf_zero s hg h (hg.2.2 t pc h hpc hd) t1

/-- C3 at a concrete schedule: thread 0 creates the context 1 and gets a token on
it; thread 1 calls `ContextDestroy(1)` and reaches the `std::unique_lock`, where it
cannot move. -/
theorem destroy_waits_for_tokens_witness :
    tstep 5
        (exec 5 (start 2)
          [(0, Call.create), (0, Call.create), (0, Call.create), (0, Call.create),
           (0, Call.create), (0, Call.create), (0, Call.get 1), (0, Call.get 1),
           (0, Call.get 1), (1, Call.destroy 1), (1, Call.destroy 1),
           (1, Call.destroy 1)])
        1 (Call.destroy 1)
      = none :=
  (destroy_waits_for_tokens 5 2
    [(0, Call.create), (0, Call.create), (0, Call.create), (0, Call.create),
     (0, Call.create), (0, Call.create), (0, Call.get 1), (0, Call.get 1),
     (0, Call.get 1), (1, Call.destroy 1), (1, Call.destroy 1),
     (1, Call.destroy 1)]).2.2.1 1 0 (Call.destroy 1) 1 (by decide) (by decide)

/-! ## One thread alone

The statements of a call, run without interruption, have the effect of the function
that models the whole call. -/

theorem exec_cons_some (maxId : Nat) (s s1 : Sys) (t : Nat) (c : Call)
    (rest : List (Nat × Call)) (h : tstep maxId s t c = some s1) :
    exec maxId s ((t, c) :: rest) = exec maxId s1 rest := by
  simp [exec, h]

theorem set_of_getElem? {α : Type} (l : List α) (t : Nat) (x : α) (h : l[t]? = some x) :
    l.set t x = l := by
  induction l generalizing t with
  | nil => rfl
  | cons y ys ih =>
    cases t with
    | zero =>
      simp only [List.getElem?_cons_zero, Option.some.injEq] at h
      rw [List.set_cons_zero, h]
    | succ n =>
      simp only [List.getElem?_cons_succ] at h
      rw [List.set_cons_succ, ih n h]

theorem set_idle_of_idle (pcs : List Pc) (t : Nat) (pc0 pc : Pc) (h : pcs[t]? = some pc) :
    (pcs.set t pc0).set t pc = pcs := by
  rw [List.set_set, set_of_getElem? _ _ _ h]

theorem ContextGet_world_of_lock_none (id : ABI45_0_0EXGLContextId) (w : World)
    (h : (ContextGet id w).1.lock = none) : (ContextGet id w).2 = w := by
  unfold ContextGet at h ⊢
  cases hf : find w.manager.contextMap id with
  | none => rfl
  | some st =>
    by_cases hc : st.ctx = none
    · simp [hc]
    · simp [hf, hc] at h

/-- A thread that runs alone executes `ContextGet` as the function `ContextGet`: three
statements take the state and the returned pair of the function, and the lock of the
returned pair, if it owns a mutex, is a new token of the thread. -/
theorem solo_get (maxId : Nat) (s : Sys) (t : Nat) (id : ABI45_0_0EXGLContextId)
    (hidle : s.pcs[t]? = some Pc.idle) (hfree : s.contextLookupMutex = none)
    (hx : id ∉ s.exclusive) :
    exec maxId s (List.replicate 3 (t, Call.get id))
      = { s with
          world := (ContextGet id s.world).2
          tokens := if (ContextGet id s.world).1.lock = none then s.tokens
            else s.tokens ++ [(t, id)]
          rets := s.rets ++ [(t, Ret.got (ContextGet id s.world).1)] } := by
  have hlt : t < s.pcs.length := lt_length_of_getElem? _ _ _ hidle
  have h1 : tstep maxId s t (Call.get id) = some (goto s t (Pc.getLock id)) := by
    simp [tstep, hidle]
  have h2 : tstep maxId (goto s t (Pc.getLock id)) t (Call.get id)
      = some { goto s t (Pc.getFind id) with contextLookupMutex := some t } := by
    simp [tstep, goto, List.getElem?_set_self hlt, hfree, List.set_set]
  by_cases hl : (ContextGet id s.world).1.lock = none
  · have h3 : tstep maxId { goto s t (Pc.getFind id) with contextLookupMutex := some t } t
        (Call.get id)
        = some { s with rets := s.rets ++ [(t, Ret.got (ContextGet id s.world).1)] } := by
      simp [tstep, goto, finish, List.getElem?_set_self hlt, hl, hfree,
        set_idle_of_idle _ _ _ _ hidle]
    show exec maxId s [(t, Call.get id), (t, Call.get id), (t, Call.get id)] = _
    rw [exec_cons_some _ _ _ _ _ _ h1, exec_cons_some _ _ _ _ _ _ h2,
      exec_cons_some _ _ _ _ _ _ h3]
    simp only [exec, hl, if_true, ContextGet_world_of_lock_none id s.world hl]
  · have h3 : tstep maxId { goto s t (Pc.getFind id) with contextLookupMutex := some t } t
        (Call.get id)
        = some { s with
            world := (ContextGet id s.world).2
            tokens := s.tokens ++ [(t, id)]
            rets := s.rets ++ [(t, Ret.got (ContextGet id s.world).1)] } := by
      simp [tstep, goto, finish, List.getElem?_set_self hlt, hl, hx, hfree,
        set_idle_of_idle _ _ _ _ hidle]
    show exec maxId s [(t, Call.get id), (t, Call.get id), (t, Call.get id)] = _
    rw [exec_cons_some _ _ _ _ _ _ h1, exec_cons_some _ _ _ _ _ _ h2,
      exec_cons_some _ _ _ _ _ _ h3]
    simp only [exec, hl, if_false]

/-- A thread that runs alone executes `ContextCreate` as the function
`ContextCreate`. -/
theorem solo_create (maxId : Nat) (s : Sys) (t : Nat)
    (hidle : s.pcs[t]? = some Pc.idle) (hfree : s.contextLookupMutex = none) :
    ∃ k, exec maxId s (List.replicate k (t, Call.create))
      = { s with
          world := (ContextCreate maxId s.world).2
          rets := s.rets ++ [(t, Ret.created (ContextCreate maxId s.world).1)] } := by
  have hlt : t < s.pcs.length := lt_length_of_getElem? _ _ _ hidle
  have h1 : tstep maxId s t Call.create = some (goto s t Pc.createCheck) := by
    simp [tstep, hidle]
  by_cases hge : s.world.manager.nextId ≥ maxId
  · refine ⟨2, ?_⟩
    have h2 : tstep maxId (goto s t Pc.createCheck) t Call.create
        = some { s with
            world := (ContextCreate maxId s.world).2
            rets := s.rets ++ [(t, Ret.created (ContextCreate maxId s.world).1)] } := by
      simp [tstep, goto, finish, List.getElem?_set_self hlt, hge, ContextCreate,
        set_idle_of_idle _ _ _ _ hidle]
    show exec maxId s [(t, Call.create), (t, Call.create)] = _
    rw [exec_cons_some _ _ _ _ _ _ h1, exec_cons_some _ _ _ _ _ _ h2]
    rfl
  · have h2 : tstep maxId (goto s t Pc.createCheck) t Call.create
        = some (goto s t Pc.createLock) := by
      simp [tstep, goto, List.getElem?_set_self hlt, hge, List.set_set]
    have h3 : tstep maxId (goto s t Pc.createLock) t Call.create
        = some { goto s t Pc.createReserve with contextLookupMutex := some t } := by
      simp [tstep, goto, List.getElem?_set_self hlt, hfree, List.set_set]
    have h4 : tstep maxId { goto s t Pc.createReserve with contextLookupMutex := some t } t
        Call.create
        = some { goto s t (Pc.createFind s.world.manager.nextId) with
            contextLookupMutex := some t
            world := { s.world with
              manager := { s.world.manager with
                nextId := (s.world.manager.nextId + 1) % (maxId + 1) } } } := by
      simp [tstep, goto, List.getElem?_set_self hlt, List.set_set]
    cases hf : find s.world.manager.contextMap s.world.manager.nextId with
    | some st =>
      refine ⟨5, ?_⟩
      have h5 : tstep maxId { goto s t (Pc.createFind s.world.manager.nextId) with
            contextLookupMutex := some t
            world := { s.world with
              manager := { s.world.manager with
                nextId := (s.world.manager.nextId + 1) % (maxId + 1) } } } t Call.create
          = some { s with
              world := (ContextCreate maxId s.world).2
              rets := s.rets ++ [(t, Ret.created (ContextCreate maxId s.world).1)] } := by
        simp [tstep, goto, finish, List.getElem?_set_self hlt, hge, hf, hfree, ContextCreate,
          set_idle_of_idle _ _ _ _ hidle]
      show exec maxId s [(t, Call.create), (t, Call.create), (t, Call.create),
        (t, Call.create), (t, Call.create)] = _
      rw [exec_cons_some _ _ _ _ _ _ h1, exec_cons_some _ _ _ _ _ _ h2,
        exec_cons_some _ _ _ _ _ _ h3, exec_cons_some _ _ _ _ _ _ h4,
        exec_cons_some _ _ _ _ _ _ h5]
      rfl
    | none =>
      refine ⟨6, ?_⟩
      have h5 : tstep maxId { goto s t (Pc.createFind s.world.manager.nextId) with
            contextLookupMutex := some t
            world := { s.world with
              manager := { s.world.manager with
                nextId := (s.world.manager.nextId + 1) % (maxId + 1) } } } t Call.create
          = some { goto s t (Pc.createInsert s.world.manager.nextId) with
              contextLookupMutex := some t
              world := { s.world with
                manager := { s.world.manager with
                  nextId := (s.world.manager.nextId + 1) % (maxId + 1) } } } := by
        simp [tstep, goto, List.getElem?_set_self hlt, hf, List.set_set]
      have h6 : tstep maxId { goto s t (Pc.createInsert s.world.manager.nextId) with
              contextLookupMutex := some t
              world := { s.world with
                manager := { s.world.manager with
                  nextId := (s.world.manager.nextId + 1) % (maxId + 1) } } } t Call.create
          = some { s with
              world := (ContextCreate maxId s.world).2
              rets := s.rets ++ [(t, Ret.created (ContextCreate maxId s.world).1)] } := by
        simp [tstep, goto, finish, List.getElem?_set_self hlt, hge, hf, hfree, ContextCreate,
          set_idle_of_idle _ _ _ _ hidle]
      show exec maxId s [(t, Call.create), (t, Call.create), (t, Call.create),
        (t, Call.create), (t, Call.create), (t, Call.create)] = _
      rw [exec_cons_some _ _ _ _ _ _ h1, exec_cons_some _ _ _ _ _ _ h2,
        exec_cons_some _ _ _ _ _ _ h3, exec_cons_some _ _ _ _ _ _ h4,
        exec_cons_some _ _ _ _ _ _ h5, exec_cons_some _ _ _ _ _ _ h6]
      rfl

/-- A thread that runs alone executes a returning `ContextDestroy` as the function
`ContextDestroy`. -/
theorem solo_destroy (maxId : Nat) (s : Sys) (t : Nat) (id : ABI45_0_0EXGLContextId)
    (w1 : World) (hidle : s.pcs[t]? = some Pc.idle) (hfree : s.contextLookupMutex = none)
    (hx : id ∉ s.exclusive) (hd : ContextDestroy id s.world = some w1) :
    ∃ k, exec maxId s (List.replicate k (t, Call.destroy id))
      = { s with world := w1, rets := s.rets ++ [(t, Ret.destroyed)] } := by
  have hlt : t < s.pcs.length := lt_length_of_getElem? _ _ _ hidle
  have h1 : tstep maxId s t (Call.destroy id) = some (goto s t (Pc.destroyLock id)) := by
    simp [tstep, hidle]
  have h2 : tstep maxId (goto s t (Pc.destroyLock id)) t (Call.destroy id)
      = some { goto s t (Pc.destroyFind id) with contextLookupMutex := some t } := by
    simp [tstep, goto, List.getElem?_set_self hlt, hfree, List.set_set]
  cases hf : find s.world.manager.contextMap id with
  | none =>
    refine ⟨3, ?_⟩
    have hw : w1 = s.world := by
      simp only [ContextDestroy, hf, Option.some.injEq] at hd
      exact hd.symm
    have h3 : tstep maxId { goto s t (Pc.destroyFind id) with contextLookupMutex := some t } t
        (Call.destroy id)
        = some { s with world := w1, rets := s.rets ++ [(t, Ret.destroyed)] } := by
      simp [tstep, goto, finish, List.getElem?_set_self hlt, hf, hfree, hw,
        set_idle_of_idle _ _ _ _ hidle]
    show exec maxId s [(t, Call.destroy id), (t, Call.destroy id), (t, Call.destroy id)] = _
    rw [exec_cons_some _ _ _ _ _ _ h1, exec_cons_some _ _ _ _ _ _ h2,
      exec_cons_some _ _ _ _ _ _ h3]
    rfl
  | some st =>
    refine ⟨7, ?_⟩
    have hsh : st.mutex.shared = 0 := by
      by_contra hne
      simp [ContextDestroy, hf, hne] at hd
    have hw : w1 = { s.world with
        heap := heapDelete s.world.heap st.ctx
        manager := { s.world.manager with
          contextMap := erase s.world.manager.contextMap id } } := by
      rw [ContextDestroy_present s.world id st hf hsh] at hd
      exact (Option.some.inj hd).symm
    have hso : sharedOf s.world.manager.contextMap id = 0 := by
      simp [sharedOf, hf, hsh]
    have h3 : tstep maxId { goto s t (Pc.destroyFind id) with contextLookupMutex := some t } t
        (Call.destroy id)
        = some { goto s t (Pc.destroyUnique id) with contextLookupMutex := some t } := by
      simp [tstep, goto, List.getElem?_set_self hlt, hf, List.set_set]
    have h4 : tstep maxId { goto s t (Pc.destroyUnique id) with contextLookupMutex := some t } t
        (Call.destroy id)
        = some { goto s t (Pc.destroyDelete id) with
            contextLookupMutex := some t, exclusive := id :: s.exclusive } := by
      simp [tstep, goto, List.getElem?_set_self hlt, hso, hx, List.set_set]
    have h5 : tstep maxId { goto s t (Pc.destroyDelete id) with
            contextLookupMutex := some t, exclusive := id :: s.exclusive } t (Call.destroy id)
        = some { goto s t (Pc.destroyUnlock id) with
            contextLookupMutex := some t, exclusive := id :: s.exclusive
            world := { s.world with heap := heapDelete s.world.heap st.ctx } } := by
      simp [tstep, goto, List.getElem?_set_self hlt, hf, List.set_set]
    have h6 : tstep maxId { goto s t (Pc.destroyUnlock id) with
            contextLookupMutex := some t, exclusive := id :: s.exclusive
            world := { s.world with heap := heapDelete s.world.heap st.ctx } } t
          (Call.destroy id)
        = some { goto s t (Pc.destroyErase id) with
            contextLookupMutex := some t
            world := { s.world with heap := heapDelete s.world.heap st.ctx } } := by
      simp [tstep, goto, List.getElem?_set_self hlt, List.set_set]
    have h7 : tstep maxId { goto s t (Pc.destroyErase id) with
            contextLookupMutex := some t
            world := { s.world with heap := heapDelete s.world.heap st.ctx } } t
          (Call.destroy id)
        = some { s with world := w1, rets := s.rets ++ [(t, Ret.destroyed)] } := by
      simp [tstep, goto, finish, List.getElem?_set_self hlt, hfree, hw,
        set_idle_of_idle _ _ _ _ hidle]
    show exec maxId s [(t, Call.destroy id), (t, Call.destroy id), (t, Call.destroy id),
      (t, Call.destroy id), (t, Call.destroy id), (t, Call.destroy id),
      (t, Call.destroy id)] = _
    rw [exec_cons_some _ _ _ _ _ _ h1, exec_cons_some _ _ _ _ _ _ h2,
      exec_cons_some _ _ _ _ _ _ h3, exec_cons_some _ _ _ _ _ _ h4,
      exec_cons_some _ _ _ _ _ _ h5, exec_cons_some _ _ _ _ _ _ h6,
      exec_cons_some _ _ _ _ _ _ h7]
    rfl

/-! ## More claims about runs -/

theorem ContextGet_syslog (id : ABI45_0_0EXGLContextId) (w : World) :
    (ContextGet id w).2.syslog = w.syslog := by
  unfold ContextGet
  cases find w.manager.contextMap id with
  | none => rfl
  | some st =>
    by_cases hc : st.ctx = none
    · simp [hc]
    · simp [hc]

/-- An action from a state satisfying the invariant adds at most the out-of-ids
message to the log. -/
theorem step_syslog (maxId : Nat) (w w1 : World) (c : Call) (r : Ret) (hinv : Inv maxId w)
    (hs : step maxId w c = some (r, w1)) :
    ∀ m ∈ w1.syslog, m ∈ w.syslog ∨ m = "Ran out of ABI45_0_0EXGLContext ids!" := by
  intro m hm
  cases c with
  | create =>
    simp only [step, Option.some.injEq, Prod.mk.injEq] at hs
    rw [← hs.2] at hm
    by_cases hlt : w.manager.nextId < maxId
    · rw [ContextCreate_fresh maxId w hlt (not_mem_keys_nextId maxId w hinv)] at hm
      exact Or.inl hm
    · rw [ContextCreate_full maxId w (Nat.le_of_not_lt hlt)] at hm
      simp only [List.mem_append, List.mem_singleton] at hm
      exact hm
  | get id =>
    simp only [step, Option.some.injEq, Prod.mk.injEq] at hs
    rw [← hs.2, ContextGet_syslog] at hm
    exact Or.inl hm
  | destroy id =>
    simp only [step] at hs
    cases hd : ContextDestroy id w with
    | none => simp [hd] at hs
    | some w2 =>
      simp only [hd, Option.some.injEq, Prod.mk.injEq] at hs
      rw [← hs.2, (ContextDestroy_some w w2 id hd).2.2.1] at hm
      exact Or.inl hm
  | drop id =>
    simp only [step, Option.some.injEq, Prod.mk.injEq] at hs
    rw [← hs.2] at hm
    exact Or.inl hm

theorem run_syslog (maxId : Nat) (cs : List Call) (w : World) (hinv : Inv maxId w)
    (hlog : ∀ m ∈ w.syslog, m = "Ran out of ABI45_0_0EXGLContext ids!") :
    ∀ m ∈ (run maxId w cs).2.syslog, m = "Ran out of ABI45_0_0EXGLContext ids!" := by
  induction cs generalizing w with
  | nil => exact hlog
  | cons c cs ih =>
    cases hs : step maxId w c with
    | none =>
      rw [run_cons_none maxId w c cs hs]
      exact hlog
    | some p =>
      obtain ⟨r, w1⟩ := p
      rw [run_cons_some maxId w w1 c cs r hs]
      refine ih w1 (Inv_step maxId w w1 c r hinv hs) ?_
      intro m hm
      rcases step_syslog maxId w w1 c r hinv hs m hm with h | h
      · exact hlog m h
      · exact h

/-- C12: in every state reached from the initial registry every key of the map is
below `nextId`; so `nextId` is not a key, the "tried to reuse an id" message is never
logged, a `ContextCreate` from the state returns 0 only with the counter exhausted,
and a `ContextCreate` of the run that returned 0 was called with the counter
exhausted (it is at least the `maxId`-th create). -/
theorem keys_below_nextId (maxId : Nat) (cs : List Call) :
    (∀ k ∈ keys (run maxId initial cs).2.manager.contextMap,
        k < (run maxId initial cs).2.manager.nextId) ∧
      find (run maxId initial cs).2.manager.contextMap
        (run maxId initial cs).2.manager.nextId = none ∧
      "Tried to reuse an ABI45_0_0EXGLContext id. This shouldn't really happen..."
        ∉ (run maxId initial cs).2.syslog ∧
      ((ContextCreate maxId (run maxId initial cs).2).1 = 0 →
        maxId ≤ (run maxId initial cs).2.manager.nextId) ∧
      ∀ i, (createResults (run maxId initial cs).1)[i]? = some 0 → maxId ≤ 1 + i := by
  have hinv : Inv maxId (run maxId initial cs).2 := Inv_run maxId cs initial (Inv_initial maxId)
  refine ⟨?_, ?_, ?_, ?_, ?_⟩
  · intro k hk
    obtain ⟨e, he, hek⟩ := List.mem_map.1 hk
    rw [← hek]
    exact (hinv.2.2.1 e he).2.1
  · exact (find_eq_none_iff _ _).2 (not_mem_keys_nextId maxId _ hinv)
  · intro hmem
    have h := run_syslog maxId cs initial (Inv_initial maxId)
      (fun m hm => by simp [initial] at hm) _ hmem
    revert h
    decide
  · intro h0
    rcases ContextCreate_cases maxId _ hinv with ⟨-, hres, -, -⟩ | ⟨hge, -, -⟩
    · rw [hres] at h0
      exact absurd h0 (Nat.ne_of_gt hinv.1)
    · exact hge
  · intro i hi
    have h := run_createResults maxId cs initial (Inv_initial maxId) i 0 hi
    have hone : initial.manager.nextId = 1 := rfl
    rw [hone] at h
    by_cases hlt : 1 + i < maxId
    · simp only [hlt, if_true] at h
      exact absurd h.symm (Nat.ne_of_gt (Nat.lt_of_lt_of_le Nat.zero_lt_one (Nat.le_add_right 1 i)))
    · exact Nat.le_of_not_lt hlt

/-- C16: in every state reached from the initial registry every entry of the map
holds a non-null context pointer, so `ContextGet(h)` returns a context exactly when
`h` is a key of the map. -/
theorem entries_non_null (maxId : Nat) (cs : List Call) :
    (∀ e ∈ (run maxId initial cs).2.manager.contextMap, e.2.ctx ≠ none) ∧
      (∀ h st, find (run maxId initial cs).2.manager.contextMap h = some st →
        st.ctx ≠ none) ∧
      ∀ h, (ContextGet h (run maxId initial cs).2).1.ctx ≠ none ↔
        h ∈ keys (run maxId initial cs).2.manager.contextMap := by
  have hinv : Inv maxId (run maxId initial cs).2 := Inv_run maxId cs initial (Inv_initial maxId)
  have hne : ∀ e ∈ (run maxId initial cs).2.manager.contextMap, e.2.ctx ≠ none := by
    intro e he
    obtain ⟨-, -, -, a, ha, -⟩ := hinv.2.2.1 e he
    rw [ha]
    simp
  have hfind : ∀ h st, find (run maxId initial cs).2.manager.contextMap h = some st →
      st.ctx ≠ none := fun h st hf => hne (h, st) (mem_of_find _ _ _ hf)
  refine ⟨hne, hfind, ?_⟩
  intro h
  cases hf : find (run maxId initial cs).2.manager.contextMap h with
  | none =>
    have hk : h ∉ keys (run maxId initial cs).2.manager.contextMap :=
      (find_eq_none_iff _ _).1 hf
    simp [ContextGet, hf, hk]
  | some st =>
    have hk : h ∈ keys (run maxId initial cs).2.manager.contextMap :=
      mem_keys_of_find _ _ _ hf
    have hc : ¬ st.ctx = none := hfind h st hf
    simp [ContextGet, hf, hk, hc]

/-- C17: for an id type that has the value 1, in every state reached from the
initial registry `1 ≤ nextId ≤ maxId`; the increment of `ContextCreate` is taken only
below `maxId` and gives the true successor, which is at most `maxId`; 0 is not a key;
a `ContextCreate` that changes the map does not return 0; a `ContextCreate` that
returns 0 leaves `manager` and the free store unchanged; and `ContextGet(0)` returns
the not-found pair. -/
theorem nextId_in_range (maxId : Nat) (hM : 1 ≤ maxId) (cs : List Call) :
    1 ≤ (run maxId initial cs).2.manager.nextId ∧
      (run maxId initial cs).2.manager.nextId ≤ maxId ∧
      ((run maxId initial cs).2.manager.nextId < maxId →
        (ContextCreate maxId (run maxId initial cs).2).2.manager.nextId
            = (run maxId initial cs).2.manager.nextId + 1 ∧
          (run maxId initial cs).2.manager.nextId + 1 ≤ maxId) ∧
      (maxId ≤ (run maxId initial cs).2.manager.nextId →
        (ContextCreate maxId (run maxId initial cs).2).2.manager.nextId
          = (run maxId initial cs).2.manager.nextId) ∧
      (0 : ABI45_0_0EXGLContextId) ∉ keys (run maxId initial cs).2.manager.contextMap ∧
      ((ContextCreate maxId (run maxId initial cs).2).2.manager.contextMap
          ≠ (run maxId initial cs).2.manager.contextMap →
        (ContextCreate maxId (run maxId initial cs).2).1 ≠ 0) ∧
      ((ContextCreate maxId (run maxId initial cs).2).1 = 0 →
        (ContextCreate maxId (run maxId initial cs).2).2.manager
            = (run maxId initial cs).2.manager ∧
          (ContextCreate maxId (run maxId initial cs).2).2.heap
            = (run maxId initial cs).2.heap) ∧
      ContextGet 0 (run maxId initial cs).2
        = ({ ctx := none, lock := none }, (run maxId initial cs).2) := by
  have hinv : Inv maxId (run maxId initial cs).2 := Inv_run maxId cs initial (Inv_initial maxId)
  generalize (run maxId initial cs).2 = w at hinv
  have hzero : (0 : ABI45_0_0EXGLContextId) ∉ keys w.manager.contextMap := by
    intro hk
    obtain ⟨e, he, hek⟩ := List.mem_map.1 hk
    have h1 := (hinv.2.2.1 e he).1
    rw [hek] at h1
    exact absurd h1 (by decide)
  refine ⟨hinv.1, hinv.2.1 hM, ?_, ?_, hzero, ?_, ?_, ?_⟩
  · intro hlt
    rw [ContextCreate_fresh maxId w hlt (not_mem_keys_nextId maxId w hinv)]
    exact ⟨rfl, hlt⟩
  · intro hge
    rw [ContextCreate_full maxId w hge]
  · intro hchg
    rcases ContextCreate_cases maxId w hinv with ⟨-, hres, -, -⟩ | ⟨-, -, hman⟩
    · rw [hres]
      exact Nat.ne_of_gt hinv.1
    · rw [hman] at hchg
      exact absurd rfl hchg
  · intro h0
    by_cases hlt : w.manager.nextId < maxId
    · rw [ContextCreate_fresh maxId w hlt (not_mem_keys_nextId maxId w hinv)] at h0
      exact absurd h0 (Nat.ne_of_gt hinv.1)
    · rw [ContextCreate_full maxId w (Nat.le_of_not_lt hlt)]
      exact ⟨rfl, rfl⟩
  · have hf : find w.manager.contextMap 0 = none := (find_eq_none_iff _ _).2 hzero
    simp [ContextGet, hf]

theorem nextId_in_range_witness :
    1 ≤ (run 3 initial [Call.create, Call.destroy 1, Call.create, Call.create]).2.manager.nextId ∧
      (run 3 initial [Call.create, Call.destroy 1, Call.create, Call.create]).2.manager.nextId
        ≤ 3 ∧
      ContextGet 0 (run 3 initial [Call.create, Call.destroy 1, Call.create, Call.create]).2
        = ({ ctx := none, lock := none },
            (run 3 initial [Call.create, Call.destroy 1, Call.create, Call.create]).2) :=
  ⟨(nextId_in_range 3 (by decide)
      [Call.create, Call.destroy 1, Call.create, Call.create]).1,
    (nextId_in_range 3 (by decide)
      [Call.create, Call.destroy 1, Call.create, Call.create]).2.1,
    (nextId_in_range 3 (by decide)
      [Call.create, Call.destroy 1, Call.create, Call.create]).2.2.2.2.2.2.2⟩

/-- A strictly increasing list of numbers in `[a, b)` has at most `b - a` elements. -/
theorem length_le_of_pairwise_lt (l : List Nat) (a b : Nat) (hp : l.Pairwise (· < ·))
    (hb : ∀ x ∈ l, a ≤ x ∧ x < b) : l.length ≤ b - a := by
  induction l generalizing a with
  | nil => exact Nat.zero_le _
  | cons x xs ih =>
    rw [List.pairwise_cons] at hp
    have hx := hb x (List.mem_cons_self _ _)
    have h1 := ih (x + 1) hp.2 (fun y hy =>
      ⟨hp.1 y hy, (hb y (List.mem_cons_of_mem _ hy)).2⟩)
    simp only [List.length_cons]
    omega

/-- C18: in every run from the initial registry every handle issued is at most
`maxId - 1`, so `maxId` itself is never issued, and at most `maxId - 1` creates
succeed; and once a `ContextCreate` of the run has returned 0, every later
`ContextCreate` of the run returns 0, whatever comes between them. -/
theorem exhaustion_permanent (maxId : Nat) (cs : List Call) :
    (∀ x ∈ issuedHandles (run maxId initial cs).1, x ≤ maxId - 1 ∧ x ≠ maxId) ∧
      (issuedHandles (run maxId initial cs).1).length ≤ maxId - 1 ∧
      ∀ (i j : Nat) (y : ABI45_0_0EXGLContextId), i ≤ j →
        (createResults (run maxId initial cs).1)[i]? = some 0 →
        (createResults (run maxId initial cs).1)[j]? = some y → y = 0 := by
  obtain ⟨h1, h2, -, -⟩ := run_handles maxId cs initial (Inv_initial maxId)
  have hone : initial.manager.nextId = 1 := rfl
  refine ⟨?_, ?_, ?_⟩
  · intro x hx
    have h := (h1 x hx).2.2
    simp only [ABI45_0_0EXGLContextId] at *
    omega
  · exact length_le_of_pairwise_lt _ 1 maxId h2 (fun x hx =>
      ⟨hone ▸ (h1 x hx).1, (h1 x hx).2.2⟩)
  · intro i j y hij hi hj
    have hi2 := run_createResults maxId cs initial (Inv_initial maxId) i 0 hi
    have hj2 := run_createResults maxId cs initial (Inv_initial maxId) j y hj
    rw [hone] at hi2 hj2
    have hni : ¬ 1 + i < maxId := by
      intro hlt
      simp only [hlt, if_true] at hi2
      exact absurd hi2.symm
        (Nat.ne_of_gt (Nat.lt_of_lt_of_le Nat.zero_lt_one (Nat.le_add_right 1 i)))
    have hnj : ¬ 1 + j < maxId := by omega
    simpa [hnj] using hj2

theorem exhaustion_permanent_witness :
    (issuedHandles
        (run 3 initial [Call.create, Call.create, Call.create, Call.destroy 1, Call.destroy 2,
          Call.create]).1).length ≤ 3 - 1 :=
  (exhaustion_permanent 3 [Call.create, Call.create, Call.create, Call.destroy 1,
    Call.destroy 2, Call.create]).2.1

/-! ## Threads: exclusive owners and null pointers -/

theorem ExclOk_set_other (pcs : List Pc) (ex : List ABI45_0_0EXGLContextId) (t : Nat)
    (pc pc1 : Pc) (hE : ExclOk pcs ex) (hpc : pcs[t]? = some pc)
    (hnot : ∀ id, pc ≠ Pc.destroyDelete id ∧ pc ≠ Pc.destroyUnlock id) :
    ExclOk (pcs.set t pc1) ex := by
  rcases hE with hE | ⟨t1, id, hex, hh⟩
  · exact Or.inl hE
  · right
    have ht : t ≠ t1 := by
      intro e
      subst e
      rw [hpc] at hh
      rcases hh with hh | hh
      · exact (hnot id).1 (Option.some.inj hh)
      · exact (hnot id).2 (Option.some.inj hh)
    refine ⟨t1, id, hex, ?_⟩
    rw [List.getElem?_set_ne ht]
    exact hh

theorem ExclOk_nil_of_critical (pcs : List Pc) (m : Option Nat)
    (ex : List ABI45_0_0EXGLContextId) (t : Nat) (pc : Pc) (hO : Owner pcs m)
    (hE : ExclOk pcs ex) (hpc : pcs[t]? = some pc) (hc : pc.critical = true)
    (hnot : ∀ id, pc ≠ Pc.destroyDelete id ∧ pc ≠ Pc.destroyUnlock id) : ex = [] := by
  rcases hE with hE | ⟨t1, id, -, hh⟩
  · exact hE
  · have hm : m = some t := (hO t pc hpc).1 hc
    have ht : t1 = t := by
      rcases hh with hh | hh
      · have h1 := (hO t1 _ hh).1 rfl
        rw [hm] at h1
        exact (Option.some.inj h1).symm
      · have h1 := (hO t1 _ hh).1 rfl
        rw [hm] at h1
        exact (Option.some.inj h1).symm
    subst ht
    rw [hpc] at hh
    rcases hh with hh | hh
    · exact absurd (Option.some.inj hh) (hnot id).1
    · exact absurd (Option.some.inj hh) (hnot id).2

/-- The exclusive owners when thread `t` is at line 53 or 54 of `ContextDestroy(id)`:
none, or the entry `id` alone. -/
theorem ExclOk_holder (pcs : List Pc) (m : Option Nat) (ex : List ABI45_0_0EXGLContextId)
    (t : Nat) (pc : Pc) (id : ABI45_0_0EXGLContextId) (hO : Owner pcs m) (hE : ExclOk pcs ex)
    (hpc : pcs[t]? = some pc) (hat : pc = Pc.destroyDelete id ∨ pc = Pc.destroyUnlock id) :
    ex = [] ∨ ex = [id] := by
  rcases hE with hE | ⟨t1, id1, hex, hh⟩
  · exact Or.inl hE
  · right
    have hc : pc.critical = true := by
      rcases hat with h | h <;> (subst h; rfl)
    have hm : m = some t := (hO t pc hpc).1 hc
    have ht : t1 = t := by
      rcases hh with hh | hh
      · have h1 := (hO t1 _ hh).1 rfl
        rw [hm] at h1
        exact (Option.some.inj h1).symm
      · have h1 := (hO t1 _ hh).1 rfl
        rw [hm] at h1
        exact (Option.some.inj h1).symm
    subst ht
    rw [hpc] at hh
    have hid : id1 = id := by
      rcases hat with h | h <;> rcases hh with hh | hh <;>
        (subst h; cases Option.some.inj hh <;> rfl)
    rw [hex, hid]

theorem NoNull_adjust_mutex (g : SharedMutex → SharedMutex)
    (m : List (ABI45_0_0EXGLContextId × ContextState)) (id : ABI45_0_0EXGLContextId)
    (hN : NoNull m) : NoNull (adjust (fun s => { s with mutex := g s.mutex }) m id) := by
  intro e he
  rcases mem_adjust _ _ _ _ he with h | ⟨-, st, hst, hval⟩
  · exact hN e h
  · rw [hval]
    exact hN (id, st) hst

theorem NoNull_ContextGet (id : ABI45_0_0EXGLContextId) (w : World)
    (hN : NoNull w.manager.contextMap) : NoNull (ContextGet id w).2.manager.contextMap := by
  unfold ContextGet
  cases find w.manager.contextMap id with
  | none => exact hN
  | some st =>
    by_cases hc : st.ctx = none
    · simpa [hc] using hN
    · simp only [hc, if_false]
      exact NoNull_adjust_mutex (fun m => { shared := m.shared + 1 }) _ id hN

theorem NoNull_unlockShared (id : ABI45_0_0EXGLContextId) (w : World)
    (hN : NoNull w.manager.contextMap) :
    NoNull (unlockShared (some id) w).manager.contextMap :=
  NoNull_adjust_mutex (fun m => { shared := m.shared - 1 }) _ id hN

theorem NoNull_insert (a : Nat) (m : List (ABI45_0_0EXGLContextId × ContextState))
    (id : ABI45_0_0EXGLContextId) (hN : NoNull m) :
    NoNull (adjust (fun st => { st with ctx := some a }) (subscript m id) id) := by
  unfold subscript
  cases hf : find m id with
  | some st =>
    intro e he
    rcases mem_adjust _ _ _ _ he with h | ⟨-, st1, -, hval⟩
    · exact hN e h
    · rw [hval]
      simp
  | none =>
    intro e he
    simp only [adjust, if_true, List.mem_cons] at he
    rcases he with h | h
    · rw [h]
      simp
    · exact hN e h

theorem NoNull_erase (m : List (ABI45_0_0EXGLContextId × ContextState))
    (id : ABI45_0_0EXGLContextId) (hN : NoNull m) : NoNull (erase m id) :=
  fun e he => hN e ((mem_erase _ _ _).1 he).1

/-- Every statement of every thread preserves `ExclOk` and `NoNull`. -/
theorem Safe_tstep (maxId : Nat) (s s1 : Sys) (t : Nat) (c : Call) (hg : Good s)
    (hE : ExclOk s.pcs s.exclusive) (hN : NoNull s.world.manager.contextMap)
    (hs : tstep maxId s t c = some s1) :
    ExclOk s1.pcs s1.exclusive ∧ NoNull s1.world.manager.contextMap := by
  have hO := hg.1
  unfold tstep at hs
  cases hpc : s.pcs[t]? with
  | none =>
    rw [hpc] at hs
    cases hs
  | some pc =>
    rw [hpc] at hs
    cases pc with
    | idle =>
      cases c with
      | create =>
        simp only [Option.some.injEq] at hs
        subst hs
        exact ⟨ExclOk_set_other _ _ t _ _ hE hpc (fun id => ⟨fun h => (by cases h), fun h => (by cases h)⟩), hN⟩
      | get id =>
        simp only [Option.some.injEq] at hs
        subst hs
        exact ⟨ExclOk_set_other _ _ t _ _ hE hpc (fun id => ⟨fun h => (by cases h), fun h => (by cases h)⟩), hN⟩
      | destroy id =>
        simp only [Option.some.injEq] at hs
        subst hs
        exact ⟨ExclOk_set_other _ _ t _ _ hE hpc (fun id => ⟨fun h => (by cases h), fun h => (by cases h)⟩), hN⟩
      | drop id =>
        by_cases hmem : (t, id) ∈ s.tokens
        · simp only [hmem, if_true, Option.some.injEq] at hs
          subst hs
          exact ⟨hE, NoNull_unlockShared id s.world hN⟩
        · simp [hmem] at hs
    | getLock id =>
      by_cases hm : s.contextLookupMutex = none
      · simp only [hm, if_true, Option.some.injEq] at hs
        subst hs
        exact ⟨ExclOk_set_other _ _ t _ _ hE hpc (fun id => ⟨fun h => (by cases h), fun h => (by cases h)⟩), hN⟩
      · simp [hm] at hs
    | getFind id =>
      by_cases hl : (ContextGet id s.world).1.lock = none
      · simp only [hl, if_true, Option.some.injEq] at hs
        subst hs
        exact ⟨ExclOk_set_other _ _ t _ _ hE hpc (fun id => ⟨fun h => (by cases h), fun h => (by cases h)⟩), hN⟩
      · by_cases hx : id ∈ s.exclusive
        · simp [hl, hx] at hs
        · simp only [hl, hx, if_false, Option.some.injEq] at hs
          subst hs
          exact ⟨ExclOk_set_other _ _ t _ _ hE hpc (fun id => ⟨fun h => (by cases h), fun h => (by cases h)⟩),
            NoNull_ContextGet id s.world hN⟩
    | createCheck =>
      by_cases hge : s.world.manager.nextId ≥ maxId
      · simp only [hge, if_true, Option.some.injEq] at hs
        subst hs
        exact ⟨ExclOk_set_other _ _ t _ _ hE hpc (fun id => ⟨fun h => (by cases h), fun h => (by cases h)⟩), hN⟩
      · simp only [hge, if_false, Option.some.injEq] at hs
        subst hs
        exact ⟨ExclOk_set_other _ _ t _ _ hE hpc (fun id => ⟨fun h => (by cases h), fun h => (by cases h)⟩), hN⟩
    | createLock =>
      by_cases hm : s.contextLookupMutex = none
      · simp only [hm, if_true, Option.some.injEq] at hs
        subst hs
        exact ⟨ExclOk_set_other _ _ t _ _ hE hpc (fun id => ⟨fun h => (by cases h), fun h => (by cases h)⟩), hN⟩
      · simp [hm] at hs
    | createReserve =>
      simp only [Option.some.injEq] at hs
      subst hs
      exact ⟨ExclOk_set_other _ _ t _ _ hE hpc (fun id => ⟨fun h => (by cases h), fun h => (by cases h)⟩), hN⟩
    | createFind ctxId =>
      cases hf : find s.world.manager.contextMap ctxId with
      | some st =>
        simp only [hf, Option.some.injEq] at hs
        subst hs
        exact ⟨ExclOk_set_other _ _ t _ _ hE hpc (fun id => ⟨fun h => (by cases h), fun h => (by cases h)⟩), hN⟩
      | none =>
        simp only [hf, Option.some.injEq] at hs
        subst hs
        exact ⟨ExclOk_set_other _ _ t _ _ hE hpc (fun id => ⟨fun h => (by cases h), fun h => (by cases h)⟩), hN⟩
    | createInsert ctxId =>
      simp only [Option.some.injEq] at hs
      subst hs
      exact ⟨ExclOk_set_other _ _ t _ _ hE hpc (fun id => ⟨fun h => (by cases h), fun h => (by cases h)⟩),
        NoNull_insert _ _ ctxId hN⟩
    | destroyLock id =>
      by_cases hm : s.contextLookupMutex = none
      · simp only [hm, if_true, Option.some.injEq] at hs
        subst hs
        exact ⟨ExclOk_set_other _ _ t _ _ hE hpc (fun id => ⟨fun h => (by cases h), fun h => (by cases h)⟩), hN⟩
      · simp [hm] at hs
    | destroyFind id =>
      cases hf : find s.world.manager.contextMap id with
      | none =>
        simp only [hf, Option.some.injEq] at hs
        subst hs
        exact ⟨ExclOk_set_other _ _ t _ _ hE hpc (fun id => ⟨fun h => (by cases h), fun h => (by cases h)⟩), hN⟩
      | some st =>
        simp only [hf, Option.some.injEq] at hs
        subst hs
        exact ⟨ExclOk_set_other _ _ t _ _ hE hpc (fun id => ⟨fun h => (by cases h), fun h => (by cases h)⟩), hN⟩
    | destroyUnique id =>
      by_cases hgd : sharedOf s.world.manager.contextMap id = 0 ∧ id ∉ s.exclusive
      · dsimp only at hs
        rw [if_pos hgd] at hs
        simp only [Option.some.injEq] at hs
        subst hs
        have hnil : s.exclusive = [] :=
          ExclOk_nil_of_critical _ _ _ t _ hO hE hpc rfl (fun id => ⟨fun h => (by cases h), fun h => (by cases h)⟩)
        refine ⟨Or.inr ⟨t, id, ?_, Or.inl ?_⟩, hN⟩
        · show id :: s.exclusive = [id]
          rw [hnil]
        · show (s.pcs.set t (Pc.destroyDelete id))[t]? = some (Pc.destroyDelete id)
          exact List.getElem?_set_self (lt_length_of_getElem? _ _ _ hpc)
      · dsimp only at hs
        rw [if_neg hgd] at hs
        cases hs
    | destroyDelete id =>
      simp only [Option.some.injEq] at hs
      subst hs
      refine ⟨?_, hN⟩
      rcases ExclOk_holder _ _ _ t _ id hO hE hpc (Or.inl rfl) with h | h
      · exact Or.inl h
      · refine Or.inr ⟨t, id, h, Or.inr ?_⟩
        show (s.pcs.set t (Pc.destroyUnlock id))[t]? = some (Pc.destroyUnlock id)
        exact List.getElem?_set_self (lt_length_of_getElem? _ _ _ hpc)
    | destroyUnlock id =>
      simp only [Option.some.injEq] at hs
      subst hs
      refine ⟨Or.inl ?_, hN⟩
      show s.exclusive.erase id = []
      rcases ExclOk_holder _ _ _ t _ id hO hE hpc (Or.inr rfl) with h | h
      · rw [h]
        rfl
      · rw [h]
        simp
    | destroyErase id =>
      simp only [Option.some.injEq] at hs
      subst hs
      exact ⟨ExclOk_set_other _ _ t _ _ hE hpc (fun id => ⟨fun h => (by cases h), fun h => (by cases h)⟩),
        NoNull_erase _ id hN⟩

theorem Safe_exec (maxId : Nat) (sched : List (Nat × Call)) (s : Sys) (hg : Good s)
    (hE : ExclOk s.pcs s.exclusive) (hN : NoNull s.world.manager.contextMap) :
    ExclOk (exec maxId s sched).pcs (exec maxId s sched).exclusive ∧
      NoNull (exec maxId s sched).world.manager.contextMap := by
  induction sched generalizing s with
  | nil => exact ⟨hE, hN⟩
  | cons e rest ih =>
    obtain ⟨t, c⟩ := e
    cases hs : tstep maxId s t c with
    | none =>
      simp only [exec, hs]
      exact ih s hg hE hN
    | some s1 =>
      simp only [exec, hs]
      obtain ⟨hE1, hN1⟩ := Safe_tstep maxId s s1 t c hg hE hN hs
      exact ih s1 (Good_tstep maxId s s1 t c hg hs) hE1 hN1

theorem Safe_start (n : Nat) :
    ExclOk (start n).pcs (start n).exclusive ∧ NoNull (start n).world.manager.contextMap :=
  ⟨Or.inl rfl, fun e he => by simp [start, initial, manager] at he⟩

/-! ## More claims about threads -/

/-- C11, on the code: `ContextDestroy` never writes the null pointer. For any number
of threads and any schedule, in the state reached after any number of statements
every entry of the map has a non-null `ctx`; so there is no state in which a handle
is still a key and its `ctx` is null. -/
theorem destroy_leaves_no_tombstone (maxId n : Nat) (sched : List (Nat × Call)) :
    (∀ e ∈ (exec maxId (start n) sched).world.manager.contextMap, e.2.ctx ≠ none) ∧
      ∀ h st, find (exec maxId (start n) sched).world.manager.contextMap h = some st →
        st.ctx ≠ none := by
  have hN := (Safe_exec maxId sched (start n) (Good_start n) (Safe_start n).1
    (Safe_start n).2).2
  exact ⟨hN, fun h st hf => hN (h, st) (mem_of_find _ _ _ hf)⟩

/-- The statements of `ContextDestroy(1)` on a registry that holds the context 1, one
by one: at the `delete` (line 53), after it (line 54) and before the `erase` (line 55)
the entry of 1 holds the pointer `some 0` it always held, also once the object at
address 0 is deleted; after the `erase` there is no entry. -/
theorem destroy_trace :
    (exec 5 (start 1)
        (List.replicate 6 (0, Call.create) ++ List.replicate 4 (0, Call.destroy 1))).pcs
        = [Pc.destroyDelete 1] ∧
      find (exec 5 (start 1)
        (List.replicate 6 (0, Call.create) ++ List.replicate 4 (0, Call.destroy 1))
        ).world.manager.contextMap 1 = some { ctx := some 0, mutex := { shared := 0 } } ∧
      (exec 5 (start 1)
        (List.replicate 6 (0, Call.create) ++ List.replicate 5 (0, Call.destroy 1))).pcs
        = [Pc.destroyUnlock 1] ∧
      (exec 5 (start 1)
        (List.replicate 6 (0, Call.create) ++ List.replicate 5 (0, Call.destroy 1))
        ).world.heap = [{ obj := { ctxId := 1 }, deletes := 1 }] ∧
      find (exec 5 (start 1)
        (List.replicate 6 (0, Call.create) ++ List.replicate 5 (0, Call.destroy 1))
        ).world.manager.contextMap 1 = some { ctx := some 0, mutex := { shared := 0 } } ∧
      (exec 5 (start 1)
        (List.replicate 6 (0, Call.create) ++ List.replicate 6 (0, Call.destroy 1))).pcs
        = [Pc.destroyErase 1] ∧
      find (exec 5 (start 1)
        (List.replicate 6 (0, Call.create) ++ List.replicate 6 (0, Call.destroy 1))
        ).world.manager.contextMap 1 = some { ctx := some 0, mutex := { shared := 0 } } ∧
      (exec 5 (start 1)
        (List.replicate 6 (0, Call.create) ++ List.replicate 7 (0, Call.destroy 1))).pcs
        = [Pc.idle] ∧
      find (exec 5 (start 1)
        (List.replicate 6 (0, Call.create) ++ List.replicate 7 (0, Call.destroy 1))
        ).world.manager.contextMap 1 = none := by
  decide

/-- C14 as stated fails: `contextLookupMutex` is owned by thread 0 when it is about to
construct the native context (line 42) and when it is about to delete it (line 53),
and by thread 1 while it waits at line 52 for the token of thread 0. -/
theorem lookup_mutex_held_during_resource_work :
    (exec 5 (start 1) (List.replicate 5 (0, Call.create))).pcs = [Pc.createInsert 1] ∧
      (exec 5 (start 1) (List.replicate 5 (0, Call.create))).contextLookupMutex = some 0 ∧
      (exec 5 (start 1)
        (List.replicate 6 (0, Call.create) ++ List.replicate 4 (0, Call.destroy 1))).pcs
        = [Pc.destroyDelete 1] ∧
      (exec 5 (start 1)
        (List.replicate 6 (0, Call.create) ++ List.replicate 4 (0, Call.destroy 1))
        ).contextLookupMutex = some 0 ∧
      (exec 5 (start 2)
        (List.replicate 6 (0, Call.create) ++ List.replicate 3 (0, Call.get 1) ++
          List.replicate 3 (1, Call.destroy 1))).pcs = [Pc.idle, Pc.destroyUnique 1] ∧
      (exec 5 (start 2)
        (List.replicate 6 (0, Call.create) ++ List.replicate 3 (0, Call.get 1) ++
          List.replicate 3 (1, Call.destroy 1))).contextLookupMutex = some 1 ∧
      tstep 5 (exec 5 (start 2)
        (List.replicate 6 (0, Call.create) ++ List.replicate 3 (0, Call.get 1) ++
          List.replicate 3 (1, Call.destroy 1))) 1 (Call.destroy 1) = none := by
  decide

/-- C14, as the code has it: for any number of threads and any schedule, a thread
owns `contextLookupMutex` exactly at its critical program points: all of `ContextGet`
and `ContextDestroy` after their first line, and `ContextCreate` from line 37 on. In
particular it owns it when it constructs the native context (line 42), when it waits
for the entry's exclusive lock (line 52) and when it deletes the native context
(line 53); at the exhaustion check (line 31) it does not. -/
theorem lookup_mutex_owner (maxId n : Nat) (sched : List (Nat × Call)) (t : Nat) (pc : Pc)
    (hpc : (exec maxId (start n) sched).pcs[t]? = some pc) :
    ((exec maxId (start n) sched).contextLookupMutex = some t ↔ pc.critical = true) ∧
      (∀ id, pc = Pc.createInsert id ∨ pc = Pc.destroyUnique id ∨ pc = Pc.destroyDelete id →
        (exec maxId (start n) sched).contextLookupMutex = some t) ∧
      (pc = Pc.createCheck → (exec maxId (start n) sched).contextLookupMutex ≠ some t) := by
  have hO := (Good_exec maxId sched (start n) (Good_start n)).1 t pc hpc
  refine ⟨hO.symm, ?_, ?_⟩
  · intro id hid
    apply hO.1
    rcases hid with h | h | h <;> (subst h; rfl)
  · intro h hm
    subst h
    have := hO.2 hm
    cases this

theorem lookup_mutex_owner_witness :
    (exec 5 (start 1)
        (List.replicate 6 (0, Call.create) ++ List.replicate 4 (0, Call.destroy 1))
        ).contextLookupMutex = some 0 :=
  ((lookup_mutex_owner 5 1
    (List.replicate 6 (0, Call.create) ++ List.replicate 4 (0, Call.destroy 1))
    0 (Pc.destroyDelete 1) (by decide)).2.1 1 (Or.inr (Or.inr rfl)))

/-- C13 as stated fails when a `ContextDestroy(h)` is pending. Thread 0 holds one
token on the context 1; thread 1 is in `ContextDestroy(1)`, owns `contextLookupMutex`
and waits at line 52, so the entry of 1 is still in the map with its context and
without exclusive owner; thread 2 has called `ContextGet(1)` and cannot move. Once
thread 0 drops its token, thread 1 destroys the context and the `ContextGet(1)` of
thread 2 returns the not-found pair; no token is held. -/
theorem get_waits_behind_destroy :
    find (exec 5 (start 3)
        (List.replicate 6 (0, Call.create) ++ List.replicate 3 (0, Call.get 1) ++
          List.replicate 3 (1, Call.destroy 1) ++ [(2, Call.get 1)])
        ).world.manager.contextMap 1 = some { ctx := some 0, mutex := { shared := 1 } } ∧
      (exec 5 (start 3)
        (List.replicate 6 (0, Call.create) ++ List.replicate 3 (0, Call.get 1) ++
          List.replicate 3 (1, Call.destroy 1) ++ [(2, Call.get 1)])).exclusive = [] ∧
      (exec 5 (start 3)
        (List.replicate 6 (0, Call.create) ++ List.replicate 3 (0, Call.get 1) ++
          List.replicate 3 (1, Call.destroy 1) ++ [(2, Call.get 1)])).tokens = [(0, 1)] ∧
      (exec 5 (start 3)
        (List.replicate 6 (0, Call.create) ++ List.replicate 3 (0, Call.get 1) ++
          List.replicate 3 (1, Call.destroy 1) ++ [(2, Call.get 1)])).pcs
        = [Pc.idle, Pc.destroyUnique 1, Pc.getLock 1] ∧
      tstep 5 (exec 5 (start 3)
        (List.replicate 6 (0, Call.create) ++ List.replicate 3 (0, Call.get 1) ++
          List.replicate 3 (1, Call.destroy 1) ++ [(2, Call.get 1)])) 2 (Call.get 1) = none ∧
      (exec 5 (start 3)
        (List.replicate 6 (0, Call.create) ++ List.replicate 3 (0, Call.get 1) ++
          List.replicate 3 (1, Call.destroy 1) ++ [(2, Call.get 1)] ++ [(0, Call.drop 1)] ++
          List.replicate 4 (1, Call.destroy 1) ++ List.replicate 2 (2, Call.get 1))).rets
        = [(0, Ret.created 1), (0, Ret.got { ctx := some 0, lock := some 1 }),
           (0, Ret.dropped), (1, Ret.destroyed),
           (2, Ret.got { ctx := none, lock := none })] ∧
      (exec 5 (start 3)
        (List.replicate 6 (0, Call.create) ++ List.replicate 3 (0, Call.get 1) ++
          List.replicate 3 (1, Call.destroy 1) ++ [(2, Call.get 1)] ++ [(0, Call.drop 1)] ++
          List.replicate 4 (1, Call.destroy 1) ++ List.replicate 2 (2, Call.get 1))).tokens
        = [] := by
  decide

/-- C13, as the code has it: for any number of threads and any schedule, (1) a
`ContextGet(h)` at its first line can move exactly when no thread owns
`contextLookupMutex`; (2) a `ContextGet(h)` that owns `contextLookupMutex`, for a
handle `h` whose entry holds a context, returns at once, whatever number of tokens on
`h` is held: it returns that context with a lock on the entry, every token held
before is still held, and the tokens on `h` and the shared owners of the entry's mutex
are one more than before. -/
theorem get_after_lock_succeeds (maxId n : Nat) (sched : List (Nat × Call)) (t : Nat)
    (h : ABI45_0_0EXGLContextId) (c : Call) :
    ((exec maxId (start n) sched).pcs[t]? = some (Pc.getLock h) →
        ((tstep maxId (exec maxId (start n) sched) t c).isSome ↔
          (exec maxId (start n) sched).contextLookupMutex = none)) ∧
      ∀ st a, (exec maxId (start n) sched).pcs[t]? = some (Pc.getFind h) →
        find (exec maxId (start n) sched).world.manager.contextMap h = some st →
        st.ctx = some a →
        ∃ s1, tstep maxId (exec maxId (start n) sched) t c = some s1 ∧
          s1.tokens = (exec maxId (start n) sched).tokens ++ [(t, h)] ∧
          heldOn s1.tokens h = heldOn (exec maxId (start n) sched).tokens h + 1 ∧
          sharedOf s1.world.manager.contextMap h
            = sharedOf (exec maxId (start n) sched).world.manager.contextMap h + 1 ∧
          s1.rets = (exec maxId (start n) sched).rets
            ++ [(t, Ret.got { ctx := some a, lock := some h })] ∧
          s1.pcs[t]? = some Pc.idle := by
  have hg : Good (exec maxId (start n) sched) := Good_exec maxId sched (start n) (Good_start n)
  have hE := (Safe_exec maxId sched (start n) (Good_start n) (Safe_start n).1
    (Safe_start n).2).1
  generalize exec maxId (start n) sched = s at hg hE
  constructor
  · intro hpc
    unfold tstep
    rw [hpc]
    dsimp only
    by_cases hm : s.contextLookupMutex = none
    · simp [hm]
    · simp [hm]
  · intro st a hpc hf hctx
    have hnil : s.exclusive = [] :=
      ExclOk_nil_of_critical _ _ _ t _ hg.1 hE hpc rfl
        (fun id => ⟨fun e => (by cases e), fun e => (by cases e)⟩)
    have hget : (ContextGet h s.world).1 = { ctx := some a, lock := some h } := by
      simp [ContextGet, hf, hctx]
    have hl : ¬ (ContextGet h s.world).1.lock = none := by
      rw [hget]
      simp
    have hx : h ∉ s.exclusive := by
      rw [hnil]
      simp
    refine ⟨finish { s with
        world := (ContextGet h s.world).2
        tokens := s.tokens ++ [(t, h)] } t (Ret.got (ContextGet h s.world).1) true,
      ?_, rfl, ?_, ?_, ?_, ?_⟩
    · unfold tstep
      rw [hpc]
      dsimp only
      rw [if_neg hl, if_neg hx]
    · show heldOn (s.tokens ++ [(t, h)]) h = heldOn s.tokens h + 1
      rw [heldOn_append]
      simp
    · show sharedOf (ContextGet h s.world).2.manager.contextMap h
        = sharedOf s.world.manager.contextMap h + 1
      rw [sharedOf_ContextGet h h s.world hl]
      simp
    · show s.rets ++ [(t, Ret.got (ContextGet h s.world).1)]
        = s.rets ++ [(t, Ret.got { ctx := some a, lock := some h })]
      rw [hget]
    · show (s.pcs.set t Pc.idle)[t]? = some Pc.idle
      exact List.getElem?_set_self (lt_length_of_getElem? _ _ _ hpc)

theorem get_after_lock_succeeds_witness :
    ∃ s1, tstep 5 (exec 5 (start 2)
          (List.replicate 6 (0, Call.create) ++ List.replicate 3 (0, Call.get 1) ++
            List.replicate 2 (1, Call.get 1))) 1 (Call.get 1) = some s1 ∧
      s1.tokens = (exec 5 (start 2)
          (List.replicate 6 (0, Call.create) ++ List.replicate 3 (0, Call.get 1) ++
            List.replicate 2 (1, Call.get 1))).tokens ++ [(1, 1)] ∧
      heldOn s1.tokens 1 = heldOn (exec 5 (start 2)
          (List.replicate 6 (0, Call.create) ++ List.replicate 3 (0, Call.get 1) ++
            List.replicate 2 (1, Call.get 1))).tokens 1 + 1 ∧
      sharedOf s1.world.manager.contextMap 1
        = sharedOf (exec 5 (start 2)
          (List.replicate 6 (0, Call.create) ++ List.replicate 3 (0, Call.get 1) ++
            List.replicate 2 (1, Call.get 1))).world.manager.contextMap 1 + 1 ∧
      s1.rets = (exec 5 (start 2)
          (List.replicate 6 (0, Call.create) ++ List.replicate 3 (0, Call.get 1) ++
            List.replicate 2 (1, Call.get 1))).rets
        ++ [(1, Ret.got { ctx := some 0, lock := some 1 })] ∧
      s1.pcs[1]? = some Pc.idle :=
  (get_after_lock_succeeds 5 2
    (List.replicate 6 (0, Call.create) ++ List.replicate 3 (0, Call.get 1) ++
      List.replicate 2 (1, Call.get 1)) 1 1 (Call.get 1)).2
    { ctx := some 0, mutex := { shared := 1 } } 0 (by decide) (by decide) rfl

/-! ## The exhaustion check and the lock -/

theorem exec_cons_none (maxId : Nat) (s : Sys) (t : Nat) (c : Call)
    (rest : List (Nat × Call)) (h : tstep maxId s t c = none) :
    exec maxId s ((t, c) :: rest) = exec maxId s rest := by
  simp [exec, h]

theorem exec_append (maxId : Nat) (a b : List (Nat × Call)) (s : Sys) :
    exec maxId s (a ++ b) = exec maxId (exec maxId s a) b := by
  induction a generalizing s with
  | nil => rfl
  | cons e rest ih =>
    obtain ⟨t, c⟩ := e
    rw [List.cons_append]
    cases hs : tstep maxId s t c with
    | none =>
      rw [exec_cons_none _ _ _ _ _ hs, exec_cons_none _ _ _ _ _ hs]
      exact ih s
    | some s1 =>
      rw [exec_cons_some _ _ _ _ _ _ hs, exec_cons_some _ _ _ _ _ _ hs]
      exact ih s1

/-- With two threads, a state between calls whose `nextId` is `j + 1` is reached from
the start, for every `j + 1` up to `maxId`. -/
theorem reach_nextId (maxId j : Nat) (hj : j + 1 ≤ maxId) :
    ∃ sched, (exec maxId (start 2) sched).pcs = [Pc.idle, Pc.idle] ∧
      (exec maxId (start 2) sched).contextLookupMutex = none ∧
      Inv maxId (exec maxId (start 2) sched).world ∧
      (exec maxId (start 2) sched).world.manager.nextId = j + 1 := by
  induction j with
  | zero => exact ⟨[], rfl, rfl, Inv_initial maxId, rfl⟩
  | succ j ih =>
    obtain ⟨sched, hp, hm, hinv, hn⟩ := ih (Nat.le_of_succ_le hj)
    have hidle : (exec maxId (start 2) sched).pcs[0]? = some Pc.idle := by
      rw [hp]
      rfl
    obtain ⟨k, hk⟩ := solo_create maxId (exec maxId (start 2) sched) 0 hidle hm
    have hlt : (exec maxId (start 2) sched).world.manager.nextId < maxId := by
      rw [hn]
      exact hj
    refine ⟨sched ++ List.replicate k (0, Call.create), ?_, ?_, ?_, ?_⟩
    · rw [exec_append, hk]
      exact hp
    · rw [exec_append, hk]
      exact hm
    · rw [exec_append, hk]
      exact Inv_ContextCreate maxId _ hinv
    · rw [exec_append, hk]
      show (ContextCreate maxId (exec maxId (start 2) sched).world).2.manager.nextId = j + 1 + 1
      rw [ContextCreate_fresh maxId _ hlt (not_mem_keys_nextId maxId _ hinv), ← hn]

/-- The statements of `ContextCreate` from line 36 on, run without interruption by a
thread that has passed the exhaustion check, when `nextId` is not a key. -/
theorem create_locked_part (maxId : Nat) (s : Sys) (t : Nat)
    (hpc : s.pcs[t]? = some Pc.createLock) (hfree : s.contextLookupMutex = none)
    (hf : find s.world.manager.contextMap s.world.manager.nextId = none) :
    exec maxId s (List.replicate 4 (t, Call.create))
      = { s with
          pcs := s.pcs.set t Pc.idle
          world := { s.world with
            manager := {
              contextMap :=
                (s.world.manager.nextId,
                  { ctx := some s.world.heap.length, mutex := { shared := 0 } })
                  :: s.world.manager.contextMap
              nextId := (s.world.manager.nextId + 1) % (maxId + 1) }
            heap := s.world.heap
              ++ [{ obj := { ctxId := s.world.manager.nextId }, deletes := 0 }] }
          rets := s.rets ++ [(t, Ret.created s.world.manager.nextId)] } := by
  have hlt : t < s.pcs.length := lt_length_of_getElem? _ _ _ hpc
  have h1 : tstep maxId s t Call.create
      = some { goto s t Pc.createReserve with contextLookupMutex := some t } := by
    simp [tstep, hpc, hfree]
  have h2 : tstep maxId { goto s t Pc.createReserve with contextLookupMutex := some t } t
      Call.create
      = some { goto s t (Pc.createFind s.world.manager.nextId) with
          contextLookupMutex := some t
          world := { s.world with
            manager := { s.world.manager with
              nextId := (s.world.manager.nextId + 1) % (maxId + 1) } } } := by
    simp [tstep, goto, List.getElem?_set_self hlt, List.set_set]
  have h3 : tstep maxId { goto s t (Pc.createFind s.world.manager.nextId) with
        contextLookupMutex := some t
        world := { s.world with
          manager := { s.world.manager with
            nextId := (s.world.manager.nextId + 1) % (maxId + 1) } } } t Call.create
      = some { goto s t (Pc.createInsert s.world.manager.nextId) with
          contextLookupMutex := some t
          world := { s.world with
            manager := { s.world.manager with
              nextId := (s.world.manager.nextId + 1) % (maxId + 1) } } } := by
    simp [tstep, goto, List.getElem?_set_self hlt, hf, List.set_set]
  have h4 : tstep maxId { goto s t (Pc.createInsert s.world.manager.nextId) with
          contextLookupMutex := some t
          world := { s.world with
            manager := { s.world.manager with
              nextId := (s.world.manager.nextId + 1) % (maxId + 1) } } } t Call.create
      = some { s with
          pcs := s.pcs.set t Pc.idle
          world := { s.world with
            manager := {
              contextMap :=
                (s.world.manager.nextId,
                  { ctx := some s.world.heap.length, mutex := { shared := 0 } })
                  :: s.world.manager.contextMap
              nextId := (s.world.manager.nextId + 1) % (maxId + 1) }
            heap := s.world.heap
              ++ [{ obj := { ctxId := s.world.manager.nextId }, deletes := 0 }] }
          rets := s.rets ++ [(t, Ret.created s.world.manager.nextId)] } := by
    simp [tstep, goto, finish, List.getElem?_set_self hlt, hf, hfree, List.set_set,
      subscript, adjust, heapNew]
  show exec maxId s [(t, Call.create), (t, Call.create), (t, Call.create),
    (t, Call.create)] = _
  rw [exec_cons_some _ _ _ _ _ _ h1, exec_cons_some _ _ _ _ _ _ h2,
    exec_cons_some _ _ _ _ _ _ h3, exec_cons_some _ _ _ _ _ _ h4]
  rfl

/-- Two threads pass the exhaustion check of line 31 one after the other, before
either takes the lock of line 36. -/
theorem both_pass_check (maxId : Nat) (s : Sys) (hp : s.pcs = [Pc.idle, Pc.idle])
    (hlt : s.world.manager.nextId < maxId) :
    exec maxId s [(0, Call.create), (1, Call.create), (0, Call.create), (1, Call.create)]
      = { s with pcs := [Pc.createLock, Pc.createLock] } := by
  have hge : ¬ s.world.manager.nextId ≥ maxId := Nat.not_le.2 hlt
  have h1 : tstep maxId s 0 Call.create = some { s with pcs := [Pc.createCheck, Pc.idle] } := by
    simp [tstep, goto, hp]
  have h2 : tstep maxId { s with pcs := [Pc.createCheck, Pc.idle] } 1 Call.create
      = some { s with pcs := [Pc.createCheck, Pc.createCheck] } := by
    simp [tstep, goto]
  have h3 : tstep maxId { s with pcs := [Pc.createCheck, Pc.createCheck] } 0 Call.create
      = some { s with pcs := [Pc.createLock, Pc.createCheck] } := by
    simp [tstep, goto, hge]
  have h4 : tstep maxId { s with pcs := [Pc.createLock, Pc.createCheck] } 1 Call.create
      = some { s with pcs := [Pc.createLock, Pc.createLock] } := by
    simp [tstep, goto, hge]
  rw [exec_cons_some _ _ _ _ _ _ h1, exec_cons_some _ _ _ _ _ _ h2,
    exec_cons_some _ _ _ _ _ _ h3, exec_cons_some _ _ _ _ _ _ h4]
  rfl

/-- The race of two `ContextCreate` calls on a registry whose `nextId` is `maxId - 1`:
both pass the check of line 31 before either takes the lock; the first returns
`maxId - 1`, the second returns `maxId` and leaves `nextId` wrapped to 0. -/
theorem create_race (maxId : Nat) (s : Sys) (hp : s.pcs = [Pc.idle, Pc.idle])
    (hm : s.contextLookupMutex = none) (hinv : Inv maxId s.world)
    (hn : s.world.manager.nextId + 1 = maxId) :
    (exec maxId s
        ([(0, Call.create), (1, Call.create), (0, Call.create), (1, Call.create)] ++
          (List.replicate 4 (0, Call.create) ++ List.replicate 4 (1, Call.create)))
        ).world.manager.nextId = 0 ∧
      (exec maxId s
        ([(0, Call.create), (1, Call.create), (0, Call.create), (1, Call.create)] ++
          (List.replicate 4 (0, Call.create) ++ List.replicate 4 (1, Call.create)))).rets
        = s.rets ++ [(0, Ret.created s.world.manager.nextId)] ++ [(1, Ret.created maxId)] ∧
      (exec maxId s
        ([(0, Call.create), (1, Call.create), (0, Call.create), (1, Call.create)] ++
          (List.replicate 4 (0, Call.create) ++ List.replicate 4 (1, Call.create)))).pcs
        = [Pc.idle, Pc.idle] ∧
      (exec maxId s
        ([(0, Call.create), (1, Call.create), (0, Call.create), (1, Call.create)] ++
          (List.replicate 4 (0, Call.create) ++ List.replicate 4 (1, Call.create)))
        ).contextLookupMutex = none := by
  have hlt : s.world.manager.nextId < maxId := Nat.lt_of_succ_le (Nat.le_of_eq hn)
  have hf0 : find s.world.manager.contextMap s.world.manager.nextId = none :=
    (find_eq_none_iff _ _).2 (not_mem_keys_nextId maxId _ hinv)
  have hmod1 : (s.world.manager.nextId + 1) % (maxId + 1) = maxId := by
    rw [hn]
    exact Nat.mod_eq_of_lt (Nat.lt_succ_self _)
  have hfmax : find s.world.manager.contextMap maxId = none := by
    rw [find_eq_none_iff]
    intro hk
    obtain ⟨e, he, hek⟩ := List.mem_map.1 hk
    have h1 := (hinv.2.2.1 e he).2.2.1
    rw [hek] at h1
    exact Nat.lt_irrefl _ h1
  have hne : ¬ s.world.manager.nextId = maxId := Nat.ne_of_lt hlt
  have hf1 : find ((s.world.manager.nextId,
        ({ ctx := some s.world.heap.length, mutex := { shared := 0 } } : ContextState))
        :: s.world.manager.contextMap) ((s.world.manager.nextId + 1) % (maxId + 1)) = none := by
    rw [hmod1]
    simp only [find, hne, if_false]
    exact hfmax
  have e1 := both_pass_check maxId s hp hlt
  have e2 : exec maxId { s with pcs := [Pc.createLock, Pc.createLock] }
      (List.replicate 4 (0, Call.create))
      = { s with
          pcs := [Pc.idle, Pc.createLock]
          world := { s.world with
            manager := {
              contextMap :=
                (s.world.manager.nextId,
                  { ctx := some s.world.heap.length, mutex := { shared := 0 } })
                  :: s.world.manager.contextMap
              nextId := (s.world.manager.nextId + 1) % (maxId + 1) }
            heap := s.world.heap
              ++ [{ obj := { ctxId := s.world.manager.nextId }, deletes := 0 }] }
          rets := s.rets ++ [(0, Ret.created s.world.manager.nextId)] } :=
    create_locked_part maxId { s with pcs := [Pc.createLock, Pc.createLock] } 0 rfl hm hf0
  have e3 := create_locked_part maxId
    { s with
      pcs := [Pc.idle, Pc.createLock]
      world := { s.world with
        manager := {
          contextMap :=
            (s.world.manager.nextId,
              { ctx := some s.world.heap.length, mutex := { shared := 0 } })
              :: s.world.manager.contextMap
          nextId := (s.world.manager.nextId + 1) % (maxId + 1) }
        heap := s.world.heap
          ++ [{ obj := { ctxId := s.world.manager.nextId }, deletes := 0 }] }
      rets := s.rets ++ [(0, Ret.created s.world.manager.nextId)] } 1 rfl hm hf1
  rw [exec_append, exec_append, e1, e2, e3]
  refine ⟨?_, ?_, rfl, hm⟩
  · show ((s.world.manager.nextId + 1) % (maxId + 1) + 1) % (maxId + 1) = 0
    rw [hmod1]
    exact Nat.mod_self _
  · show s.rets ++ [(0, Ret.created s.world.manager.nextId)]
        ++ [(1, Ret.created ((s.world.manager.nextId + 1) % (maxId + 1)))]
      = s.rets ++ [(0, Ret.created s.world.manager.nextId)] ++ [(1, Ret.created maxId)]
    rw [hmod1]

/-- C15, on the code: the exhaustion check of line 31 runs before the lock of line 36
is taken. For an id type with at least the values 1 and 2 there is a schedule of two
threads from the initial process, with every call completed, after which the counter
has passed `maxId` and wrapped to 0, and the two last `ContextCreate` calls, which ran
at the same time, returned `maxId - 1` and the largest id value `maxId` itself. -/
theorem create_race_wraps (maxId : Nat) (hM : 2 ≤ maxId) :
    ∃ sched, (exec maxId (start 2) sched).world.manager.nextId = 0 ∧
      (0, Ret.created (maxId - 1)) ∈ (exec maxId (start 2) sched).rets ∧
      (1, Ret.created maxId) ∈ (exec maxId (start 2) sched).rets ∧
      (exec maxId (start 2) sched).pcs = [Pc.idle, Pc.idle] ∧
      (exec maxId (start 2) sched).contextLookupMutex = none := by
  have hj : maxId - 2 + 1 ≤ maxId := by omega
  obtain ⟨sched, hp, hm, hinv, hn⟩ := reach_nextId maxId (maxId - 2) hj
  have a1 : maxId - 2 + 1 + 1 = maxId := by omega
  have a2 : maxId - 2 + 1 = maxId - 1 := by omega
  have hn1 : (exec maxId (start 2) sched).world.manager.nextId + 1 = maxId := by
    rw [hn]
    exact a1
  have hn2 : (exec maxId (start 2) sched).world.manager.nextId = maxId - 1 := by
    rw [hn]
    exact a2
  obtain ⟨h1, h2, h3, h4⟩ := create_race maxId _ hp hm hinv hn1
  refine ⟨sched ++ ([(0, Call.create), (1, Call.create), (0, Call.create), (1, Call.create)] ++
    (List.replicate 4 (0, Call.create) ++ List.replicate 4 (1, Call.create))), ?_, ?_, ?_, ?_, ?_⟩
  · rw [exec_append]
    exact h1
  · rw [exec_append, h2, hn2]
    simp
  · rw [exec_append, h2]
    simp
  · rw [exec_append]
    exact h3
  · rw [exec_append]
    exact h4

theorem create_race_wraps_witness :
    ∃ sched, (exec 4294967295 (start 2) sched).world.manager.nextId = 0 ∧
      (0, Ret.created (4294967295 - 1)) ∈ (exec 4294967295 (start 2) sched).rets ∧
      (1, Ret.created 4294967295) ∈ (exec 4294967295 (start 2) sched).rets ∧
      (exec 4294967295 (start 2) sched).pcs = [Pc.idle, Pc.idle] ∧
      (exec 4294967295 (start 2) sched).contextLookupMutex = none :=
  create_race_wraps 4294967295 (by decide)

/-- The race for an id type with largest value 3, and what follows it. After one
`ContextCreate` (handle 1) two racing calls return 2 and 3 and `nextId` is 0. Then
`ContextDestroy(1)`; the next `ContextCreate` returns 0 and has inserted an entry with
key 0; the one after it returns the handle 1 a second time; and `ContextGet(0)`
returns a context. -/
theorem create_race_small :
    (exec 3 (start 2)
        (List.replicate 6 (0, Call.create) ++
          [(0, Call.create), (1, Call.create), (0, Call.create), (1, Call.create)] ++
          List.replicate 4 (0, Call.create) ++ List.replicate 4 (1, Call.create))
        ).world.manager.nextId = 0 ∧
      (exec 3 (start 2)
        (List.replicate 6 (0, Call.create) ++
          [(0, Call.create), (1, Call.create), (0, Call.create), (1, Call.create)] ++
          List.replicate 4 (0, Call.create) ++ List.replicate 4 (1, Call.create) ++
          List.replicate 7 (0, Call.destroy 1) ++ List.replicate 6 (0, Call.create) ++
          List.replicate 6 (0, Call.create) ++ List.replicate 3 (0, Call.get 0))).rets
        = [(0, Ret.created 1), (0, Ret.created 2), (1, Ret.created 3), (0, Ret.destroyed),
           (0, Ret.created 0), (0, Ret.created 1),
           (0, Ret.got { ctx := some 3, lock := some 0 })] ∧
      keys (exec 3 (start 2)
        (List.replicate 6 (0, Call.create) ++
          [(0, Call.create), (1, Call.create), (0, Call.create), (1, Call.create)] ++
          List.replicate 4 (0, Call.create) ++ List.replicate 4 (1, Call.create) ++
          List.replicate 7 (0, Call.destroy 1) ++ List.replicate 6 (0, Call.create) ++
          List.replicate 6 (0, Call.create) ++ List.replicate 3 (0, Call.get 0))
        ).world.manager.contextMap = [1, 0, 3, 2] := by
  decide

end ABI45_0_0expo.gl_cpp
